import Mathlib

/-!
# Verification of the ScraperReklama5 crawl-and-persist pipeline

Shallow embedding of the change-tracking persistence layer
(`src/storage/sqlite_store.py`), the change classifier, retry loops,
session deduplication and the orchestrator's page-end decisions
(`src/scraperReklama5.py`), together with proofs about the spec's claims.

Modelling conventions:
* Python values flowing through the pipeline (SQLite cells, scraped fields)
  are `Val`: `None`, `bool`, `int` or `str`.
* Python dicts keyed by field name are association lists (`ListingMap`);
  `mget` is `dict.get(name)` (first binding wins, `None` when absent).
* The SQLite `listings` table is an association list from the TEXT primary
  key to the row.  SQLite column-affinity coercions are not modelled: a row
  stores exactly the values the program wrote (all writes in this program
  store cleaned values whose types match the declared affinities).
* `hashlib.sha256(payload).hexdigest()` is modelled as the serialized JSON
  payload itself: the digest of `_calculate_listing_hash` is injective on
  payloads up to SHA-256 collisions, and every claim observes hashes only
  through equality, which the serialization preserves.
* `datetime` values are civil date-times with seconds precision (the pipeline
  always writes `timespec="seconds"` / `"%Y-%m-%d %H:%M"` strings);
  `datetime.fromisoformat` is modelled on the grammar
  `YYYY-MM-DD[<sep>HH:MM[:SS]]` that the pipeline produces.
* Wall-clock reads (`datetime.now()`) are an explicit `now` parameter, and
  network fetches are an oracle mapping the attempt number to an optional
  response.
-/

namespace Reklama5

/-- A Python value as it occurs in listing dicts and SQLite rows:
`None`, `bool`, `int` or `str`. -/
inductive Val where
  | vnone : Val
  | vbool : Bool → Val
  | vint : Int → Val
  | vstr : String → Val
deriving DecidableEq, Repr

/-- Python `str(value)` on the values of `Val`. -/
def pyStr : Val → String
  | .vnone => "None"
  | .vbool b => if b then "True" else "False"
  | .vint n => toString n
  | .vstr s => s

/-- Python truthiness (`if value:`) on the values of `Val`. -/
def pyTruthy : Val → Bool
  | .vnone => false
  | .vbool b => b
  | .vint n => n ≠ 0
  | .vstr s => s ≠ ""

/-- A listing record / dict keyed by field name. -/
abbrev ListingMap := List (String × Val)

/-- `dict.get(name)`: value of the first binding of `k`, `None` when absent. -/
def mget (m : ListingMap) (k : String) : Val :=
  match m with
  | [] => .vnone
  | (k', v) :: rest => if k' = k then v else mget rest k

/-- `dict[name] = value`: update the binding of `k` in place, or append a new
one at the end (Python dict insertion-order semantics; the dicts of this
program bind each key once). -/
def msetKey : ListingMap → String → Val → ListingMap
  | [], k, v => [(k, v)]
  | (a, b) :: rest, k, v =>
      if a = k then (a, v) :: rest else (a, b) :: msetKey rest k v

theorem mget_msetKey_self (m : ListingMap) (k : String) (v : Val) :
    mget (msetKey m k v) k = v := by
  induction m with
  | nil => simp [msetKey, mget]
  | cons p rest ih =>
    rcases p with ⟨a, b⟩
    by_cases h : a = k
    · simp [msetKey, h, mget]
    · simp [msetKey, h, mget, ih]

theorem mget_msetKey_ne (m : ListingMap) (k k' : String) (v : Val) (h : k' ≠ k) :
    mget (msetKey m k v) k' = mget m k' := by
  induction m with
  | nil =>
    simp only [msetKey, mget]
    rw [if_neg (fun hh => h hh.symm)]
  | cons p rest ih =>
    rcases p with ⟨a, b⟩
    simp only [msetKey]
    by_cases ha : a = k
    · subst ha
      rw [if_pos rfl]
      simp only [mget]
      rw [if_neg (fun hh => h hh.symm), if_neg (fun hh => h hh.symm)]
    · rw [if_neg ha]
      simp only [mget]
      by_cases hc : a = k'
      · rw [if_pos hc, if_pos hc]
      · rw [if_neg hc, if_neg hc]
        exact ih

/-- Looking up a field in a dict built by mapping a function over field names
returns that function's value at the field (first occurrence wins, and every
occurrence carries the same value). -/
theorem mget_map_fields (l : List String) (f : String → Val) (n : String)
    (h : n ∈ l) : mget (l.map fun m => (m, f m)) n = f n := by
  induction l with
  | nil => cases h
  | cons a as ih =>
    simp only [List.map_cons, mget]
    by_cases ha : a = n
    · simp [ha]
    · rw [if_neg ha]
      rcases List.mem_cons.mp h with h1 | h2
      · exact absurd h1.symm ha
      · exact ih h2

/-! ## Field-name constants (`src/scraperReklama5.py` module level) -/

/-- `CSV_FIELDNAMES`: the tracked fields of a listing, in canonical order. -/
def CSV_FIELDNAMES : List String :=
  ["id", "link", "make", "model", "year", "price", "km", "kw", "ps",
   "fuel", "gearbox", "body", "color", "registration", "reg_until",
   "emission_class", "date", "city", "promoted"]

/-- `DB_FIELDNAMES`: every tracked field except `promoted`; the column list of
the `listings` table used by the persistence path. -/
def DB_FIELDNAMES : List String :=
  CSV_FIELDNAMES.filter (fun n => n != "promoted")

/-- `DETAIL_ONLY_FIELDS`: attributes only available from a detail page. -/
def DETAIL_ONLY_FIELDS : List String :=
  ["fuel", "gearbox", "body", "color", "registration", "reg_until",
   "emission_class"]

/-- `OVERVIEW_COMPARISON_FIELDS`: the subset compared by the classifier. -/
def OVERVIEW_COMPARISON_FIELDS : List String := ["link", "price", "km", "date"]

/-- `STATUS_COMPARISON_FIELDS = list(OVERVIEW_COMPARISON_FIELDS)`. -/
def STATUS_COMPARISON_FIELDS : List String := OVERVIEW_COMPARISON_FIELDS

/-- `DATE_COMPARISON_TOLERANCE = timedelta(hours=1)`, in seconds. -/
def DATE_COMPARISON_TOLERANCE_SECONDS : Nat := 3600

def STATUS_NEW : String := "new"

def STATUS_CHANGED : String := "changed"

def STATUS_UNCHANGED : String := "unchanged"

/-! ## Value cleaning and the canonical content hash
(`src/storage/sqlite_store.py`) -/

/-- `_normalize_value`: booleans become `0`/`1`, everything else is kept. -/
def _normalize_value : Val → Val
  | .vbool b => .vint (if b then 1 else 0)
  | v => v

/-- Python `str.strip()`: drop leading and trailing whitespace (modelled over
the ASCII whitespace characters, which is all the pipeline's text uses). -/
def pyStrip (s : String) : String :=
  String.mk
    (((s.data.dropWhile Char.isWhitespace).reverse.dropWhile Char.isWhitespace).reverse)

/-- `_clean_field_value`: normalize, strip strings, and turn empty strings
into `None`. -/
def _clean_field_value (v : Val) : Val :=
  match _normalize_value v with
  | .vstr s =>
      let s := pyStrip s
      if s = "" then .vnone else .vstr s
  | v' => v'

/-- Two lowercase hex digits for a byte below 256 (`json.dumps` control-char
escapes). -/
def hexDigit (n : Nat) : Char :=
  if n < 10 then Char.ofNat (48 + n) else Char.ofNat (87 + n)

/-- JSON escape of one character, as `json.dumps(..., ensure_ascii=False)`
produces it. -/
def jsonEscapeChar (c : Char) : String :=
  if c = '"' then "\\\""
  else if c = '\\' then "\\\\"
  else if c = Char.ofNat 10 then "\\n"
  else if c = Char.ofNat 9 then "\\t"
  else if c = Char.ofNat 13 then "\\r"
  else if c = Char.ofNat 8 then "\\b"
  else if c = Char.ofNat 12 then "\\f"
  else if c.toNat < 32 then
    String.mk ['\\', 'u', '0', '0', hexDigit (c.toNat / 16), hexDigit (c.toNat % 16)]
  else String.singleton c

/-- A JSON string literal for `s`. -/
def jsonQuote (s : String) : String :=
  "\"" ++ String.join (s.toList.map jsonEscapeChar) ++ "\""

/-- JSON serialization of one scalar value (`json.dumps` on `Val`). -/
def serializeVal : Val → String
  | .vnone => "null"
  | .vbool b => if b then "true" else "false"
  | .vint n => toString n
  | .vstr s => jsonQuote s

/-- Code-point lexicographic order on strings, as Python `sorted` uses. -/
def charListLe : List Char → List Char → Bool
  | [], _ => true
  | _ :: _, [] => false
  | a :: as, b :: bs =>
      if a.toNat < b.toNat then true
      else if b.toNat < a.toNat then false
      else charListLe as bs

def strLe (a b : String) : Bool := charListLe a.toList b.toList

/-- Insert into a list sorted by `strLe`. -/
def sortedInsert (x : String) : List String → List String
  | [] => [x]
  | y :: ys => if strLe x y then x :: y :: ys else y :: sortedInsert x ys

/-- Insertion sort by `strLe` (Python `sorted` on the key list). -/
def sortStrings : List String → List String
  | [] => []
  | x :: xs => sortedInsert x (sortStrings xs)

/-- The distinct keys of a dict, first occurrence first. -/
def dedupKeys : List String → List String
  | [] => []
  | k :: ks => k :: (dedupKeys ks).filter (fun x => x != k)

/-- `", "`-joined rendering of the (already sorted) key/value entries. -/
def serializeEntries (kvs : ListingMap) : List String → String
  | [] => ""
  | [k] => jsonQuote k ++ ": " ++ serializeVal (mget kvs k)
  | k :: rest =>
      jsonQuote k ++ ": " ++ serializeVal (mget kvs k) ++ ", " ++
        serializeEntries kvs rest

/-- `_calculate_listing_hash`: the canonical digest over a field dict.
The source serializes the dict with its keys sorted
(`json.dumps(..., ensure_ascii=False, sort_keys=True)`) and takes the SHA-256
hex digest.  The digest step is modelled as the identity on the serialized
payload: every claim observes hashes only through equality, and SHA-256 is
injective on the payloads of this program up to hash collisions. -/
def _calculate_listing_hash (values : ListingMap) : String :=
  "\x7b" ++ serializeEntries values (sortStrings (dedupKeys (values.map Prod.fst))) ++ "\x7d"

/-- `_ensure_listing_id`: the explicit `id` if present and non-empty, else the
record digest; always a string. -/
def _ensure_listing_id (values : ListingMap) : String :=
  let listing_id := mget values "id"
  if listing_id = .vnone ∨ listing_id = .vstr "" then _calculate_listing_hash values
  else pyStr listing_id

/-- `_serialize_change_value`: `None` stays SQL `NULL`, other values are
JSON-serialized (no value of `Val` hits the `TypeError` fallback). -/
def _serialize_change_value : Val → Option String
  | .vnone => none
  | v => some (serializeVal v)

/-! ## The persistence layer (`upsert_many` / `prepare_row`) -/

/-- One row of the append-only `listing_changes` table. -/
structure ChangeEntry where
  listing_id : String
  field : String
  old_value : Option String
  new_value : Option String
  change_type : String
  changed_at : String
deriving DecidableEq, Repr

/-- One row of the `listings` table: the tracked field columns plus the
bookkeeping columns.  The program writes `hash`, `created_at`, `updated_at`
and `last_seen` on every insert/update, so they are modelled non-null. -/
structure StoredRow where
  fields : ListingMap
  hash : String
  created_at : String
  updated_at : String
  last_seen : String
deriving DecidableEq, Repr

/-- `dict(row).get(name)` for a tracked field column. -/
def rowGet (r : StoredRow) (n : String) : Val := mget r.fields n

/-- The `listings` table, keyed by the TEXT primary key `id`. -/
abbrev Store := List (String × StoredRow)

/-- `SELECT * FROM listings WHERE id = ?`. -/
def storeLookup : Store → String → Option StoredRow
  | [], _ => none
  | (k, r) :: rest, i => if k = i then some r else storeLookup rest i

/-- `INSERT ... ON CONFLICT(id) DO UPDATE`: replace the row stored under the
key, or append a new one. -/
def storeWrite : Store → String → StoredRow → Store
  | [], i, r => [(i, r)]
  | (k, r') :: rest, i, r =>
      if k = i then (k, r) :: rest else (k, r') :: storeWrite rest i r

theorem storeLookup_storeWrite_self (s : Store) (i : String) (r : StoredRow) :
    storeLookup (storeWrite s i r) i = some r := by
  induction s with
  | nil => simp [storeWrite, storeLookup]
  | cons p rest ih =>
    rcases p with ⟨k, r'⟩
    by_cases h : k = i
    · simp [storeWrite, h, storeLookup]
    · simp [storeWrite, h, storeLookup, ih]

/-- The cleaned field dict of `prepare_row` before the `id` fixup:
`{name: _clean_field_value(item.get(name)) for name in fieldnames}`. -/
def normalizedBase (fieldnames : List String) (item : ListingMap) : ListingMap :=
  fieldnames.map fun n => (n, _clean_field_value (mget item n))

/-- The identifier `prepare_row` assigns:
`normalized["id"] = _ensure_listing_id(normalized)`. -/
def listingIdOf (fieldnames : List String) (item : ListingMap) : String :=
  _ensure_listing_id (normalizedBase fieldnames item)

/-- The cleaned field dict after the `id` fixup. -/
def normalizedOf (fieldnames : List String) (item : ListingMap) : ListingMap :=
  msetKey (normalizedBase fieldnames item) "id"
    (.vstr (listingIdOf fieldnames item))

/-- The merge-by-presence rule of `prepare_row`: a cleaned `None` keeps the
previously persisted value when a prior row exists. -/
def mergedValOf (normalized : ListingMap) (existing : Option StoredRow)
    (n : String) : Val :=
  match existing with
  | some ex => if mget normalized n = .vnone then rowGet ex n else mget normalized n
  | none => mget normalized n

/-- Everything `prepare_row` computes for one record. -/
structure PreparedRow where
  listing_id : String
  row : StoredRow
  changes : List ChangeEntry
deriving DecidableEq, Repr

/-- The body of `prepare_row` after the single read of the existing row:
clean, merge with any existing row, hash the merged payload, do the
created/updated/last-seen bookkeeping and collect one change row per
differing tracked field. -/
def prepare_row_with (existing : Option StoredRow) (fieldnames : List String)
    (item : ListingMap) (now_text : String) : PreparedRow :=
  let normalized := normalizedOf fieldnames item
  let listing_id := listingIdOf fieldnames item
  let merged := fieldnames.map fun n => (n, mergedValOf normalized existing n)
  let merged_hash := _calculate_listing_hash
    (fieldnames.map fun n => (n, mget merged n))
  let created_at := match existing with
    | some ex => ex.created_at
    | none => now_text
  let changes : List ChangeEntry := match existing with
    | none => []
    | some ex =>
        fieldnames.filterMap fun n =>
          if n = "id" then none
          else
            let old_value := rowGet ex n
            let new_value := mget merged n
            if old_value ≠ new_value then
              some ⟨listing_id, n, _serialize_change_value old_value,
                    _serialize_change_value new_value, n, now_text⟩
            else none
  let data_changed : Bool := match existing with
    | none => true
    | some _ => !changes.isEmpty
  let updated_at := match existing with
    | none => now_text
    | some ex => if data_changed then now_text else ex.updated_at
  ⟨listing_id,
   { fields := merged, hash := merged_hash, created_at := created_at,
     updated_at := updated_at, last_seen := now_text },
   changes⟩

/-- `prepare_row` (the closure inside `upsert_many`): read any existing row by
identifier, then run the merge/hash/bookkeeping body. -/
def prepare_row (store : Store) (fieldnames : List String) (item : ListingMap)
    (now_text : String) : PreparedRow :=
  prepare_row_with (storeLookup store (listingIdOf fieldnames item))
    fieldnames item now_text

/-- One iteration of the write loop of `upsert_many`: prepare the row, write
it, append its change rows. -/
def upsertStep (store : Store) (item : ListingMap) (fieldnames : List String)
    (now_text : String) : Store × PreparedRow :=
  let p := prepare_row store fieldnames item now_text
  (storeWrite store p.listing_id p.row, p)

/-- `upsert_many`: sequentially upsert each record inside one transaction,
returning the final store and the appended change rows. -/
def upsert_many (store : Store) (items : List ListingMap)
    (fieldnames : List String) (now_text : String) :
    Store × List ChangeEntry :=
  match items with
  | [] => (store, [])
  | item :: rest =>
      let (store', p) := upsertStep store item fieldnames now_text
      let (store'', changes) := upsert_many store' rest fieldnames now_text
      (store'', p.changes ++ changes)

/-! Equation lemmas for `prepare_row_with` (all definitional). -/

theorem prepare_row_with_listing_id (ex : Option StoredRow) (f : List String)
    (item : ListingMap) (t : String) :
    (prepare_row_with ex f item t).listing_id = listingIdOf f item := rfl

theorem prepare_row_with_fields (ex : Option StoredRow) (f : List String)
    (item : ListingMap) (t : String) :
    (prepare_row_with ex f item t).row.fields
      = f.map fun n => (n, mergedValOf (normalizedOf f item) ex n) := rfl

theorem prepare_row_with_hash (ex : Option StoredRow) (f : List String)
    (item : ListingMap) (t : String) :
    (prepare_row_with ex f item t).row.hash
      = _calculate_listing_hash (f.map fun n =>
          (n, mget (f.map fun m => (m, mergedValOf (normalizedOf f item) ex m)) n)) := rfl

theorem prepare_row_with_last_seen (ex : Option StoredRow) (f : List String)
    (item : ListingMap) (t : String) :
    (prepare_row_with ex f item t).row.last_seen = t := rfl

theorem prepare_row_with_created_none (f : List String) (item : ListingMap)
    (t : String) : (prepare_row_with none f item t).row.created_at = t := rfl

theorem prepare_row_with_created_some (ex : StoredRow) (f : List String)
    (item : ListingMap) (t : String) :
    (prepare_row_with (some ex) f item t).row.created_at = ex.created_at := rfl

theorem prepare_row_with_changes_none (f : List String) (item : ListingMap)
    (t : String) : (prepare_row_with none f item t).changes = [] := rfl

theorem prepare_row_with_changes_some (ex : StoredRow) (f : List String)
    (item : ListingMap) (t : String) :
    (prepare_row_with (some ex) f item t).changes
      = f.filterMap (fun n =>
          if n = "id" then none
          else
            if rowGet ex n ≠ mget (f.map fun m =>
                (m, mergedValOf (normalizedOf f item) (some ex) m)) n then
              some ⟨listingIdOf f item, n, _serialize_change_value (rowGet ex n),
                    _serialize_change_value (mget (f.map fun m =>
                      (m, mergedValOf (normalizedOf f item) (some ex) m)) n),
                    n, t⟩
            else none) := rfl

theorem prepare_row_with_updated_none (f : List String) (item : ListingMap)
    (t : String) : (prepare_row_with none f item t).row.updated_at = t := rfl

theorem prepare_row_with_updated_some (ex : StoredRow) (f : List String)
    (item : ListingMap) (t : String) :
    (prepare_row_with (some ex) f item t).row.updated_at
      = if !(prepare_row_with (some ex) f item t).changes.isEmpty then t
        else ex.updated_at := rfl

/-- The field column a freshly prepared row stores for a tracked field is the
merged value. -/
theorem rowGet_prepare_row_with (ex : Option StoredRow) (f : List String)
    (item : ListingMap) (t : String) (n : String) (hn : n ∈ f) :
    rowGet (prepare_row_with ex f item t).row n
      = mergedValOf (normalizedOf f item) ex n := by
  rw [rowGet, prepare_row_with_fields]
  exact mget_map_fields _ _ _ hn

/-- Re-merging an unchanged record against the row its own upsert just wrote
gives back exactly the previously merged values. -/
theorem mergedValOf_self_stable (ex : Option StoredRow) (f : List String)
    (item : ListingMap) (t : String) (n : String) (hn : n ∈ f) :
    mergedValOf (normalizedOf f item) (some (prepare_row_with ex f item t).row) n
      = mergedValOf (normalizedOf f item) ex n := by
  by_cases h : mget (normalizedOf f item) n = Val.vnone
  · simp only [mergedValOf, h, if_pos]
    rw [rowGet_prepare_row_with ex f item t n hn]
    cases ex with
    | none => simp [mergedValOf, h]
    | some ex' => simp [mergedValOf, h]
  · simp only [mergedValOf]
    rw [if_neg h]
    cases ex with
    | none => rfl
    | some ex' =>
      simp only [mergedValOf]
      rw [if_neg h]

/-- C1: upsert is idempotent — upserting the identical record twice writes the
same content hash both times, and the second upsert appends zero change rows
(`listing_changes` entries) for that record, for every record, store state and
pair of write times. -/
theorem upsert_idempotent_second_write_no_changes (s : Store)
    (item : ListingMap) (t1 t2 : String) :
    (upsertStep (upsertStep s item DB_FIELDNAMES t1).1 item DB_FIELDNAMES t2).2.row.hash
        = (upsertStep s item DB_FIELDNAMES t1).2.row.hash
      ∧ (upsertStep (upsertStep s item DB_FIELDNAMES t1).1 item DB_FIELDNAMES t2).2.changes
        = [] := by
  have hlook : storeLookup (upsertStep s item DB_FIELDNAMES t1).1
      (listingIdOf DB_FIELDNAMES item)
      = some (prepare_row s DB_FIELDNAMES item t1).row :=
    storeLookup_storeWrite_self s _ _
  have hstep2 : (upsertStep (upsertStep s item DB_FIELDNAMES t1).1 item DB_FIELDNAMES t2).2
      = prepare_row_with (some (prepare_row s DB_FIELDNAMES item t1).row)
          DB_FIELDNAMES item t2 := by
    show prepare_row_with (storeLookup (upsertStep s item DB_FIELDNAMES t1).1
        (listingIdOf DB_FIELDNAMES item)) DB_FIELDNAMES item t2 = _
    rw [hlook]
  have hstep1 : (upsertStep s item DB_FIELDNAMES t1).2
      = prepare_row_with (storeLookup s (listingIdOf DB_FIELDNAMES item))
          DB_FIELDNAMES item t1 := rfl
  have hpt : ∀ n ∈ DB_FIELDNAMES,
      mergedValOf (normalizedOf DB_FIELDNAMES item)
          (some (prepare_row s DB_FIELDNAMES item t1).row) n
        = mergedValOf (normalizedOf DB_FIELDNAMES item)
            (storeLookup s (listingIdOf DB_FIELDNAMES item)) n := fun n hn =>
    mergedValOf_self_stable _ _ _ _ _ hn
  have hmap : (DB_FIELDNAMES.map fun n =>
        (n, mergedValOf (normalizedOf DB_FIELDNAMES item)
          (some (prepare_row s DB_FIELDNAMES item t1).row) n))
      = DB_FIELDNAMES.map fun n =>
        (n, mergedValOf (normalizedOf DB_FIELDNAMES item)
          (storeLookup s (listingIdOf DB_FIELDNAMES item)) n) :=
    List.map_congr_left fun n hn => by rw [hpt n hn]
  constructor
  · rw [hstep2, hstep1, prepare_row_with_hash, prepare_row_with_hash, hmap]
  · rw [hstep2, prepare_row_with_changes_some]
    rw [List.filterMap_eq_nil_iff]
    intro n hn
    by_cases hid : n = "id"
    · rw [if_pos hid]
    · rw [if_neg hid]
      have hold : rowGet (prepare_row s DB_FIELDNAMES item t1).row n
          = mergedValOf (normalizedOf DB_FIELDNAMES item)
              (storeLookup s (listingIdOf DB_FIELDNAMES item)) n :=
        rowGet_prepare_row_with _ _ _ _ _ hn
      have hnew : mget (DB_FIELDNAMES.map fun m =>
            (m, mergedValOf (normalizedOf DB_FIELDNAMES item)
              (some (prepare_row s DB_FIELDNAMES item t1).row) m)) n
          = mergedValOf (normalizedOf DB_FIELDNAMES item)
              (storeLookup s (listingIdOf DB_FIELDNAMES item)) n := by
        rw [mget_map_fields _ _ _ hn]
        exact hpt n hn
      rw [if_neg]
      intro hne
      exact hne (by rw [hold, hnew])

/-- The change list of an upsert over an existing row is non-empty exactly
when some tracked non-`id` field of the written row differs from the prior
row. -/
theorem changes_nonempty_iff (ex : StoredRow) (f : List String)
    (item : ListingMap) (t : String) :
    (prepare_row_with (some ex) f item t).changes ≠ [] ↔
      ∃ n ∈ f, n ≠ "id" ∧
        rowGet ex n ≠ rowGet (prepare_row_with (some ex) f item t).row n := by
  constructor
  · intro h
    by_contra hno
    push_neg at hno
    apply h
    rw [prepare_row_with_changes_some, List.filterMap_eq_nil_iff]
    intro n hn
    by_cases hnid : n = "id"
    · rw [if_pos hnid]
    · rw [if_neg hnid]
      have heq : rowGet ex n = rowGet (prepare_row_with (some ex) f item t).row n :=
        hno n hn hnid
      rw [rowGet_prepare_row_with _ _ _ _ _ hn] at heq
      have hm : mget (f.map fun m =>
            (m, mergedValOf (normalizedOf f item) (some ex) m)) n
          = mergedValOf (normalizedOf f item) (some ex) n :=
        mget_map_fields _ _ _ hn
      rw [hm, if_neg (by simpa using heq)]
  · rintro ⟨n, hn, hnid, hne⟩ hnil
    rw [prepare_row_with_changes_some, List.filterMap_eq_nil_iff] at hnil
    have hthis := hnil n hn
    rw [rowGet_prepare_row_with _ _ _ _ _ hn] at hne
    have hm : mget (f.map fun m =>
          (m, mergedValOf (normalizedOf f item) (some ex) m)) n
        = mergedValOf (normalizedOf f item) (some ex) n :=
      mget_map_fields _ _ _ hn
    rw [if_neg hnid, hm, if_pos hne] at hthis
    cases hthis

/-- C2: merge-by-presence at persistence — when a record's identifier already
has a row, a tracked non-`id` field whose incoming value cleans to `None`
keeps the previously persisted value, gets no change row, and the stored
content hash is the digest of the merged payload. -/
theorem upsert_merge_by_presence (s : Store) (item : ListingMap) (t : String)
    (ex : StoredRow) (f : String) (hf : f ∈ DB_FIELDNAMES) (hid : f ≠ "id")
    (hex : storeLookup s (listingIdOf DB_FIELDNAMES item) = some ex)
    (hblank : _clean_field_value (mget item f) = Val.vnone) :
    rowGet (prepare_row s DB_FIELDNAMES item t).row f = rowGet ex f
      ∧ (∀ c ∈ (prepare_row s DB_FIELDNAMES item t).changes, c.field ≠ f)
      ∧ (prepare_row s DB_FIELDNAMES item t).row.hash
          = _calculate_listing_hash (DB_FIELDNAMES.map fun n =>
              (n, mergedValOf (normalizedOf DB_FIELDNAMES item) (some ex) n)) := by
  have hpr : prepare_row s DB_FIELDNAMES item t
      = prepare_row_with (some ex) DB_FIELDNAMES item t := by
    unfold prepare_row
    rw [hex]
  have hNf : mget (normalizedOf DB_FIELDNAMES item) f = Val.vnone := by
    rw [normalizedOf, mget_msetKey_ne _ _ _ _ hid, normalizedBase,
      mget_map_fields _ _ _ hf]
    exact hblank
  have hmerged : mergedValOf (normalizedOf DB_FIELDNAMES item) (some ex) f
      = rowGet ex f := by
    simp only [mergedValOf]
    rw [if_pos hNf]
  refine ⟨?_, ?_, ?_⟩
  · rw [hpr, rowGet_prepare_row_with _ _ _ _ _ hf, hmerged]
  · intro c hc
    rw [hpr, prepare_row_with_changes_some] at hc
    rcases List.mem_filterMap.mp hc with ⟨n, hn, hsome⟩
    by_cases hnid : n = "id"
    · rw [if_pos hnid] at hsome
      cases hsome
    · rw [if_neg hnid] at hsome
      by_cases hne : rowGet ex n ≠ mget (DB_FIELDNAMES.map fun m =>
          (m, mergedValOf (normalizedOf DB_FIELDNAMES item) (some ex) m)) n
      · rw [if_pos hne] at hsome
        cases hsome
        intro hcf
        subst hcf
        apply hne
        rw [mget_map_fields _ _ _ hf, hmerged]
      · rw [if_neg hne] at hsome
        cases hsome
  · rw [hpr, prepare_row_with_hash]
    exact congrArg _calculate_listing_hash
      (List.map_congr_left fun n hn => by rw [mget_map_fields _ _ _ hn])

/-- C3: timestamp bookkeeping on upsert — `last_seen` always becomes the write
time; on first insert `created_at` and `updated_at` become the write time; on
an update `created_at` keeps the prior row's value and `updated_at` becomes
the write time exactly when some tracked non-`id` field of the written row
differs from the prior row, otherwise keeping the prior `updated_at`. -/
theorem upsert_timestamp_bookkeeping (s : Store) (item : ListingMap)
    (t : String) :
    (prepare_row s DB_FIELDNAMES item t).row.last_seen = t
      ∧ (storeLookup s (listingIdOf DB_FIELDNAMES item) = none →
          (prepare_row s DB_FIELDNAMES item t).row.created_at = t
            ∧ (prepare_row s DB_FIELDNAMES item t).row.updated_at = t)
      ∧ (∀ ex, storeLookup s (listingIdOf DB_FIELDNAMES item) = some ex →
          (prepare_row s DB_FIELDNAMES item t).row.created_at = ex.created_at
            ∧ (prepare_row s DB_FIELDNAMES item t).row.updated_at =
                if ∃ n ∈ DB_FIELDNAMES, n ≠ "id" ∧
                    rowGet ex n ≠ rowGet (prepare_row s DB_FIELDNAMES item t).row n
                then t else ex.updated_at) := by
  refine ⟨rfl, ?_, ?_⟩
  · intro h
    have hpr : prepare_row s DB_FIELDNAMES item t
        = prepare_row_with none DB_FIELDNAMES item t := by
      unfold prepare_row
      rw [h]
    rw [hpr]
    exact ⟨prepare_row_with_created_none _ _ _, prepare_row_with_updated_none _ _ _⟩
  · intro ex h
    have hpr : prepare_row s DB_FIELDNAMES item t
        = prepare_row_with (some ex) DB_FIELDNAMES item t := by
      unfold prepare_row
      rw [h]
    rw [hpr]
    refine ⟨prepare_row_with_created_some _ _ _ _, ?_⟩
    rw [prepare_row_with_updated_some]
    by_cases hch : (prepare_row_with (some ex) DB_FIELDNAMES item t).changes = []
    · have hnot : ¬∃ n ∈ DB_FIELDNAMES, n ≠ "id" ∧
          rowGet ex n ≠ rowGet (prepare_row_with (some ex) DB_FIELDNAMES item t).row n := by
        rw [← changes_nonempty_iff]
        simpa using hch
      rw [if_neg hnot, hch]
      simp
    · rw [if_pos ((changes_nonempty_iff _ _ _ _).mp hch)]
      cases hc : (prepare_row_with (some ex) DB_FIELDNAMES item t).changes with
      | nil => exact absurd hc hch
      | cons a as => simp [hc]

/-! ## Concrete fixtures shared by the witnesses and counterexamples -/

/-- A previously persisted row for identifier `"abc"`. -/
def exRow : StoredRow :=
  { fields := [("id", .vstr "abc"), ("link", .vstr "http://x/1"),
               ("price", .vint 15000), ("km", .vint 120000),
               ("fuel", .vstr "Diesel"), ("date", .vstr "2024-05-01 12:00")],
    hash := "h0", created_at := "2024-01-01T00:00:00",
    updated_at := "2024-01-01T00:00:00", last_seen := "2024-01-01T00:00:00" }

/-- A store holding exactly `exRow`. -/
def exStore : Store := [("abc", exRow)]

/-- A later observation of `"abc"` with `fuel` now missing. -/
def exItemNoFuel : ListingMap :=
  [("id", .vstr "abc"), ("link", .vstr "http://x/1"), ("price", .vint 15000),
   ("km", .vint 120000), ("date", .vstr "2024-05-01 12:00")]

/-- A later observation of `"abc"` with a changed price. -/
def exItemPrice : ListingMap :=
  [("id", .vstr "abc"), ("link", .vstr "http://x/1"), ("price", .vint 15500),
   ("km", .vint 120000), ("fuel", .vstr "Diesel"),
   ("date", .vstr "2024-05-01 12:00")]

/-- Witness for C2 at a concrete store and record: the upsert of `exItemNoFuel`
keeps the stored `fuel`, logs no `fuel` change, and hashes the merged
payload. -/
theorem upsert_merge_by_presence_witness :
    rowGet (prepare_row exStore DB_FIELDNAMES exItemNoFuel "2024-01-02T00:00:00").row "fuel"
        = rowGet exRow "fuel"
      ∧ (prepare_row exStore DB_FIELDNAMES exItemNoFuel "2024-01-02T00:00:00").changes.all
          (fun c => c.field != "fuel") = true
      ∧ (prepare_row exStore DB_FIELDNAMES exItemNoFuel "2024-01-02T00:00:00").row.hash
          = _calculate_listing_hash (DB_FIELDNAMES.map fun n =>
              (n, mergedValOf (normalizedOf DB_FIELDNAMES exItemNoFuel) (some exRow) n)) := by
  have h := upsert_merge_by_presence exStore exItemNoFuel "2024-01-02T00:00:00" exRow
    "fuel" (by decide) (by decide) rfl rfl
  refine ⟨h.1, ?_, h.2.2⟩
  rw [List.all_eq_true]
  intro c hc
  simpa using h.2.1 c hc

/-- Witness for C3 at a concrete store and record: the price change bumps
`updated_at` to the write time and keeps `created_at`. -/
theorem upsert_timestamp_bookkeeping_witness :
    (prepare_row exStore DB_FIELDNAMES exItemPrice "2024-01-02T00:00:00").row.created_at
        = exRow.created_at
      ∧ (prepare_row exStore DB_FIELDNAMES exItemPrice "2024-01-02T00:00:00").row.updated_at
        = "2024-01-02T00:00:00" := by
  have h := (upsert_timestamp_bookkeeping exStore exItemPrice "2024-01-02T00:00:00").2.2
    exRow rfl
  exact ⟨h.1, by rw [h.2, if_pos (by decide)]⟩

/-! ## Naive datetimes and `datetime.fromisoformat`
(`_parse_iso_datetime` / `_dates_equivalent` in `src/scraperReklama5.py`) -/

/-- A naive `datetime` with seconds precision (the pipeline always writes
`timespec="seconds"` / `"%Y-%m-%d %H:%M"` values, so microseconds are always
zero). -/
structure PyDateTime where
  year : Nat
  month : Nat
  day : Nat
  hour : Nat
  minute : Nat
  second : Nat
deriving DecidableEq, Repr

def isLeapYear (y : Nat) : Bool := (y % 4 = 0 && y % 100 != 0) || y % 400 = 0

def daysInMonth (y m : Nat) : Nat :=
  if m = 2 then (if isLeapYear y then 29 else 28)
  else if m = 4 || m = 6 || m = 9 || m = 11 then 30
  else 31

/-- The proleptic-Gregorian day number of a civil date (days-from-civil
algorithm, without an epoch offset — only differences are observed). -/
def rataDays (y m d : Nat) : Nat :=
  let y' := if m ≤ 2 then y - 1 else y
  let era := y' / 400
  let yoe := y' % 400
  let mp := if 2 < m then m - 3 else m + 9
  let doy := (153 * mp + 2) / 5 + d - 1
  let doe := yoe * 365 + yoe / 4 - yoe / 100 + doy
  era * 146097 + doe

/-- Total seconds of a datetime from the day-zero epoch; `a - b` in Python is
`toSecs a - toSecs b` seconds. -/
def toSecs (dt : PyDateTime) : Nat :=
  86400 * rataDays dt.year dt.month dt.day
    + 3600 * dt.hour + 60 * dt.minute + dt.second

/-- The ranges `datetime(...)` accepts (`MINYEAR = 1`, `MAXYEAR = 9999`). -/
def validDateTime (dt : PyDateTime) : Bool :=
  1 ≤ dt.year && dt.year ≤ 9999 && 1 ≤ dt.month && dt.month ≤ 12
    && 1 ≤ dt.day && dt.day ≤ daysInMonth dt.year dt.month
    && dt.hour ≤ 23 && dt.minute ≤ 59 && dt.second ≤ 59

def digitVal (c : Char) : Option Nat :=
  if c.isDigit then some (c.toNat - 48) else none

def twoDigits (a b : Char) : Option Nat :=
  match digitVal a, digitVal b with
  | some x, some y => some (10 * x + y)
  | _, _ => none

def fourDigits (a b c d : Char) : Option Nat :=
  match twoDigits a b, twoDigits c d with
  | some x, some y => some (100 * x + y)
  | _, _ => none

def mkDateTime (y mo d h mi s : Option Nat) : Option PyDateTime :=
  match y, mo, d, h, mi, s with
  | some y, some mo, some d, some h, some mi, some s =>
      let dt : PyDateTime := ⟨y, mo, d, h, mi, s⟩
      if validDateTime dt then some dt else none
  | _, _, _, _, _, _ => none

/-- `datetime.fromisoformat`, on the grammar the pipeline produces:
`YYYY-MM-DD`, optionally followed by a single separator character and
`HH:MM` or `HH:MM:SS` (fractional seconds and offsets never occur in this
program's data and are not modelled). -/
def pyFromIsoformat (s : String) : Option PyDateTime :=
  match s.data with
  | [y1, y2, y3, y4, '-', m1, m2, '-', d1, d2] =>
      mkDateTime (fourDigits y1 y2 y3 y4) (twoDigits m1 m2) (twoDigits d1 d2)
        (some 0) (some 0) (some 0)
  | [y1, y2, y3, y4, '-', m1, m2, '-', d1, d2, _, h1, h2, ':', n1, n2] =>
      mkDateTime (fourDigits y1 y2 y3 y4) (twoDigits m1 m2) (twoDigits d1 d2)
        (twoDigits h1 h2) (twoDigits n1 n2) (some 0)
  | [y1, y2, y3, y4, '-', m1, m2, '-', d1, d2, _, h1, h2, ':', n1, n2, ':', s1, s2] =>
      mkDateTime (fourDigits y1 y2 y3 y4) (twoDigits m1 m2) (twoDigits d1 d2)
        (twoDigits h1 h2) (twoDigits n1 n2) (twoDigits s1 s2)
  | _ => none

/-- `_parse_iso_datetime`: `None`/empty never parse; other values go through
`datetime.fromisoformat(str(value))`, `None` on failure. -/
def _parse_iso_datetime (v : Val) : Option PyDateTime :=
  if v = .vnone ∨ v = .vstr "" then none
  else pyFromIsoformat (pyStr v)

/-- `_dates_equivalent`: when both values parse, equal up to the one-hour
tolerance; otherwise plain equality of the raw values. -/
def _dates_equivalent (old_value new_value : Val) : Bool :=
  match _parse_iso_datetime old_value, _parse_iso_datetime new_value with
  | some old_dt, some new_dt =>
      ((toSecs new_dt : Int) - (toSecs old_dt : Int)).natAbs
        ≤ DATE_COMPARISON_TOLERANCE_SECONDS
  | _, _ => old_value = new_value

/-- A later observation of `"abc"` identical to `exRow` except for a
30-minute shift of the `date` value. -/
def exItemDate30 : ListingMap :=
  [("id", .vstr "abc"), ("link", .vstr "http://x/1"), ("price", .vint 15000),
   ("km", .vint 120000), ("fuel", .vstr "Diesel"),
   ("date", .vstr "2024-05-01 12:30")]

/-- An upsert over an existing row emits a change entry for a tracked
non-`id` field exactly when the written (merged) value differs from the
stored one — the persistence layer's change detection is plain equality. -/
theorem change_for_field_iff (s : Store) (item : ListingMap) (t : String)
    (ex : StoredRow) (f : String) (hf : f ∈ DB_FIELDNAMES) (hfid : f ≠ "id")
    (hex : storeLookup s (listingIdOf DB_FIELDNAMES item) = some ex) :
    (∃ c ∈ (prepare_row s DB_FIELDNAMES item t).changes, c.field = f) ↔
      rowGet ex f ≠ rowGet (prepare_row s DB_FIELDNAMES item t).row f := by
  have hpr : prepare_row s DB_FIELDNAMES item t
      = prepare_row_with (some ex) DB_FIELDNAMES item t := by
    unfold prepare_row
    rw [hex]
  rw [hpr, prepare_row_with_changes_some, rowGet_prepare_row_with _ _ _ _ _ hf]
  constructor
  · rintro ⟨c, hc, hcf⟩
    rcases List.mem_filterMap.mp hc with ⟨n, hn, hsome⟩
    by_cases hnid : n = "id"
    · rw [if_pos hnid] at hsome
      cases hsome
    · rw [if_neg hnid] at hsome
      by_cases hcond : rowGet ex n ≠ mget (DB_FIELDNAMES.map fun m =>
          (m, mergedValOf (normalizedOf DB_FIELDNAMES item) (some ex) m)) n
      · rw [if_pos hcond] at hsome
        cases hsome
        simp only [ChangeEntry.field] at hcf
        subst hcf
        rw [mget_map_fields _ _ _ hf] at hcond
        exact hcond
      · rw [if_neg hcond] at hsome
        cases hsome
  · intro hne
    have hcond : rowGet ex f ≠ mget (DB_FIELDNAMES.map fun m =>
        (m, mergedValOf (normalizedOf DB_FIELDNAMES item) (some ex) m)) f := by
      rw [mget_map_fields _ _ _ hf]
      exact hne
    exact ⟨_, List.mem_filterMap.mpr ⟨f, hf, by rw [if_neg hfid, if_pos hcond]⟩, rfl⟩

/-- Counterexample for C4: `"2024-05-01 12:00"` and `"2024-05-01 12:30"` are
within the one-hour tolerance (the classifier's `_dates_equivalent` holds),
yet the persistence layer's change detection emits a `date` change entry and
bumps `updated_at` for exactly this 30-minute shift — the tolerance does not
apply at persistence. -/
theorem date_tolerance_not_in_persistence_counterexample :
    _dates_equivalent (.vstr "2024-05-01 12:00") (.vstr "2024-05-01 12:30") = true
      ∧ (∃ c ∈ (prepare_row exStore DB_FIELDNAMES exItemDate30
            "2024-01-02T00:00:00").changes, c.field = "date")
      ∧ (prepare_row exStore DB_FIELDNAMES exItemDate30
            "2024-01-02T00:00:00").row.updated_at = "2024-01-02T00:00:00" := by
  refine ⟨by decide, ?_, by decide⟩
  exact (change_for_field_iff exStore exItemDate30 "2024-01-02T00:00:00" exRow
    "date" (by decide) (by decide) rfl).mpr (by decide)

/-- C4 (amended): the one-hour tolerance governs the change classifier's date
comparison — two parseable timestamps compare equal exactly when they are at
most one hour apart — while the persistence layer's change detection compares
the `date` field by plain equality of the merged and stored values. -/
theorem date_tolerance_classifier_only (old_value new_value : Val)
    (o n : PyDateTime) (ho : _parse_iso_datetime old_value = some o)
    (hn : _parse_iso_datetime new_value = some n) :
    (_dates_equivalent old_value new_value = true ↔
        ((toSecs n : Int) - (toSecs o : Int)).natAbs
          ≤ DATE_COMPARISON_TOLERANCE_SECONDS)
      ∧ ∀ (s : Store) (item : ListingMap) (t : String) (ex : StoredRow),
          storeLookup s (listingIdOf DB_FIELDNAMES item) = some ex →
          ((∃ c ∈ (prepare_row s DB_FIELDNAMES item t).changes, c.field = "date") ↔
            rowGet ex "date" ≠ rowGet (prepare_row s DB_FIELDNAMES item t).row "date") := by
  constructor
  · rw [_dates_equivalent, ho, hn]
    simp
  · intro s item t ex hex
    exact change_for_field_iff s item t ex "date" (by decide) (by decide) hex

/-- Witness for the amended C4 at concrete inputs: the classifier treats the
30-minute shift as equal, while the persistence layer's plain comparison at
`exItemDate30` emits a `date` change entry. -/
theorem date_tolerance_classifier_only_witness :
    _dates_equivalent (.vstr "2024-05-01 12:00") (.vstr "2024-05-01 12:30") = true
      ∧ (prepare_row exStore DB_FIELDNAMES exItemDate30 "2024-01-02T00:00:00").changes.any
          (fun c => c.field == "date") = true := by
  have h := date_tolerance_classifier_only (.vstr "2024-05-01 12:00")
    (.vstr "2024-05-01 12:30") ⟨2024, 5, 1, 12, 0, 0⟩ ⟨2024, 5, 1, 12, 30, 0⟩ rfl rfl
  refine ⟨h.1.mpr (by decide), ?_⟩
  have hex := (h.2 exStore exItemDate30 "2024-01-02T00:00:00" exRow rfl).mpr (by decide)
  rw [List.any_eq_true]
  rcases hex with ⟨c, hc, hcf⟩
  exact ⟨c, hc, by simp [hcf]⟩

/-! ## The change classifier (`classify_listing_status`) -/

/-- Python `value in (None, "")` on the values compared by the classifier. -/
def isBlankVal (v : Val) : Bool := v = .vnone || v = .vstr ""

/-- `_normalize_listing_payload_for_hash`: bools to ints, strings stripped
with empty becoming `None`, a present `id` coerced to `str`. -/
def _normalize_listing_payload_for_hash (listing : ListingMap) : ListingMap :=
  CSV_FIELDNAMES.map fun name =>
    let value := mget listing name
    let value : Val := match value with
      | .vbool b => .vint (if b then 1 else 0)
      | v => v
    let value : Val := match value with
      | .vstr s => let stripped := pyStrip s
                   if stripped = "" then .vnone else .vstr stripped
      | v => v
    let value := if name = "id" ∧ value ≠ .vnone then .vstr (pyStr value) else value
    (name, value)

/-- The per-listing fallback list of `classify_listing_status`:
`list(DETAIL_ONLY_FIELDS) + ["km", "kw", "ps", "year", "price", "city",
"link"]`. -/
def fallback_fields : List String :=
  DETAIL_ONLY_FIELDS ++ ["km", "kw", "ps", "year", "price", "city", "link"]

/-- The fallback-substitution loop: a blank incoming value is replaced by a
non-blank stored value, field by field. -/
def applyFallback (existing : StoredRow) : List String → ListingMap → ListingMap
  | [], payload => payload
  | f :: rest, payload =>
      applyFallback existing rest
        (if isBlankVal (mget payload f) && !isBlankVal (rowGet existing f) then
          msetKey payload f (rowGet existing f)
        else payload)

/-- The comparison the classifier applies per comparison field: dates use the
one-hour tolerance, everything else plain equality. -/
def comparisonEqual (field : String) (old_value new_value : Val) : Bool :=
  if field = "date" then _dates_equivalent old_value new_value
  else old_value == new_value

/-- What the classifier records per listing: the status string and the diff
entries `(field, old, new)` in insertion order. -/
structure ClassifyResult where
  status : String
  changes : List (String × Val × Val)
deriving DecidableEq, Repr

/-- The fallback-merged payload the classifier hashes and compares. -/
def classifierPayload (existing : StoredRow) (listing : ListingMap) : ListingMap :=
  applyFallback existing fallback_fields
    (_normalize_listing_payload_for_hash listing)

/-- The field-level diff loop over `STATUS_COMPARISON_FIELDS`: blank incoming
values are skipped, dates compared with tolerance, one entry per differing
field in field order. -/
def payloadDiffs (existing : StoredRow) (listing : ListingMap) :
    List (String × Val × Val) :=
  STATUS_COMPARISON_FIELDS.filterMap fun field =>
    let new_value := mget (classifierPayload existing listing) field
    if isBlankVal new_value then none
    else
      let old_value := rowGet existing field
      if comparisonEqual field old_value new_value then none
      else some (field, old_value, new_value)

/-- The diff dict of the found-in-store branch: the field-level diffs, plus
the synthetic `"hash"` marker whenever any field diff exists and the
merged-record hash differs from the stored hash. -/
def classifyFoundChanges (existing : StoredRow) (listing : ListingMap) :
    List (String × Val × Val) :=
  if payloadDiffs existing listing ≠ [] ∧
      existing.hash ≠ _calculate_listing_hash (classifierPayload existing listing) then
    payloadDiffs existing listing
      ++ [("hash", .vstr existing.hash,
           .vstr (_calculate_listing_hash (classifierPayload existing listing)))]
  else payloadDiffs existing listing

/-- The status of the found-in-store branch: `changed` exactly when the diff
dict is non-empty, else `unchanged`. -/
def classifyFoundStatus (existing : StoredRow) (listing : ListingMap) : String :=
  if classifyFoundChanges existing listing ≠ [] then STATUS_CHANGED
  else STATUS_UNCHANGED

/-- The found-in-store branch of `classify_listing_status`: fallback-merge the
normalized payload, hash it, diff the comparison subset, possibly append the
synthetic `"hash"` marker, and derive the status from the diff dict. -/
@[reducible] def classifyFound (existing : StoredRow) (listing : ListingMap) :
    ClassifyResult :=
  ⟨classifyFoundStatus existing listing, classifyFoundChanges existing listing⟩

/-- The per-listing body of `classify_listing_status`: no database or no
usable identifier means `new`; an identifier missing from the store means
`new`; otherwise the found branch decides.  (The `hash` column is modelled
non-null: every row this program writes carries a hash.) -/
def classify_listing (db : Option Store) (listing : ListingMap) :
    ClassifyResult :=
  let raw_id := mget listing "id"
  let normalized_id : Option String :=
    if raw_id = .vnone ∨ raw_id = .vstr "" then none else some (pyStr raw_id)
  match db, normalized_id with
  | some store, some nid =>
      match storeLookup store nid with
      | none => ⟨STATUS_NEW, []⟩
      | some existing => classifyFound existing listing
  | _, _ => ⟨STATUS_NEW, []⟩

/-- Fields outside the fallback list are untouched by the substitution
loop. -/
theorem applyFallback_not_mem (ex : StoredRow) :
    ∀ (L : List String) (p : ListingMap) (k : String), k ∉ L →
      mget (applyFallback ex L p) k = mget p k
  | [], _, _, _ => rfl
  | f :: rest, p, k, hk => by
      simp only [applyFallback]
      have hkf : k ≠ f := fun h => hk (by simp [h])
      have hkrest : k ∉ rest := fun h => hk (List.mem_cons_of_mem f h)
      rw [applyFallback_not_mem ex rest _ k hkrest]
      by_cases hc : (isBlankVal (mget p f) && !isBlankVal (rowGet ex f)) = true
      · rw [if_pos hc]
        exact mget_msetKey_ne p f k _ hkf
      · rw [if_neg hc]

/-- On a duplicate-free fallback list, the substitution loop computes exactly
the one-field substitution rule. -/
theorem applyFallback_mem (ex : StoredRow) :
    ∀ (L : List String) (p : ListingMap) (k : String), L.Nodup → k ∈ L →
      mget (applyFallback ex L p) k =
        if isBlankVal (mget p k) && !isBlankVal (rowGet ex k) then rowGet ex k
        else mget p k
  | [], _, _, _, hk => absurd hk (List.not_mem_nil _)
  | f :: rest, p, k, hnd, hk => by
      simp only [applyFallback]
      by_cases hkf : k = f
      · subst hkf
        have hkrest : k ∉ rest := (List.nodup_cons.mp hnd).1
        rw [applyFallback_not_mem ex rest _ k hkrest]
        by_cases hc : (isBlankVal (mget p k) && !isBlankVal (rowGet ex k)) = true
        · simp [hc, mget_msetKey_self]
        · simp [hc]
      · have hkrest : k ∈ rest := List.mem_of_ne_of_mem hkf hk
        have hnd' := (List.nodup_cons.mp hnd).2
        rw [applyFallback_mem ex rest _ k hnd' hkrest]
        by_cases hc : (isBlankVal (mget p f) && !isBlankVal (rowGet ex f)) = true
        · rw [if_pos hc, mget_msetKey_ne p f k _ hkf]
        · rw [if_neg hc]

/-- The claim-side description of the classifier's field diffs: one entry per
comparison-subset field whose non-blank *incoming* normalized value differs
from the stored value (dates with tolerance), in field order. -/
def expectedComparisonDiffs (existing : StoredRow) (listing : ListingMap) :
    List (String × Val × Val) :=
  STATUS_COMPARISON_FIELDS.filterMap fun field =>
    let new_value := mget (_normalize_listing_payload_for_hash listing) field
    if isBlankVal new_value then none
    else
      if comparisonEqual field (rowGet existing field) new_value then none
      else some (field, rowGet existing field, new_value)

/-- For a non-date comparison field the fallback substitution never produces a
diff entry the incoming value would not have produced. -/
theorem comparison_branch_eq (ex : StoredRow) (listing : ListingMap)
    (field : String) (hfd : field ≠ "date") (hmem : field ∈ fallback_fields) :
    (if isBlankVal (mget (classifierPayload ex listing) field) then none
     else if comparisonEqual field (rowGet ex field)
         (mget (classifierPayload ex listing) field) then none
     else some (field, rowGet ex field, mget (classifierPayload ex listing) field))
    = (if isBlankVal (mget (_normalize_listing_payload_for_hash listing) field) then
         (none : Option (String × Val × Val))
       else if comparisonEqual field (rowGet ex field)
           (mget (_normalize_listing_payload_for_hash listing) field) then none
       else some (field, rowGet ex field,
         mget (_normalize_listing_payload_for_hash listing) field)) := by
  have hchar := applyFallback_mem ex fallback_fields
    (_normalize_listing_payload_for_hash listing) field (by decide) hmem
  rw [classifierPayload] at *
  by_cases hb : isBlankVal (mget (_normalize_listing_payload_for_hash listing) field) = true
  · by_cases he : isBlankVal (rowGet ex field) = true
    · have hc : (isBlankVal (mget (_normalize_listing_payload_for_hash listing) field)
          && !isBlankVal (rowGet ex field)) = false := by
        simp [he]
      rw [hc, if_neg (by simp)] at hchar
      rw [hchar, if_pos hb]
    · have hc : (isBlankVal (mget (_normalize_listing_payload_for_hash listing) field)
          && !isBlankVal (rowGet ex field)) = true := by
        simp [hb, he]
      rw [hc, if_pos rfl] at hchar
      have hceq : comparisonEqual field (rowGet ex field) (rowGet ex field) = true := by
        simp [comparisonEqual, hfd]
      rw [hchar, if_neg (by simp [he]), if_pos hceq, if_pos hb]
  · have hc : (isBlankVal (mget (_normalize_listing_payload_for_hash listing) field)
        && !isBlankVal (rowGet ex field)) = false := by
      simp [hb]
    rw [hc, if_neg (by simp)] at hchar
    rw [hchar]

/-- The classifier's field diffs coincide with the claim-side description over
the incoming normalized values. -/
theorem payloadDiffs_eq_expected (ex : StoredRow) (listing : ListingMap) :
    payloadDiffs ex listing = expectedComparisonDiffs ex listing := by
  unfold payloadDiffs expectedComparisonDiffs
  apply List.filterMap_congr
  intro field hfield
  have h4 : field = "link" ∨ field = "price" ∨ field = "km" ∨ field = "date" := by
    simpa [STATUS_COMPARISON_FIELDS, OVERVIEW_COMPARISON_FIELDS] using hfield
  rcases h4 with h | h | h | h
  · subst h
    exact comparison_branch_eq ex listing "link" (by decide) (by decide)
  · subst h
    exact comparison_branch_eq ex listing "price" (by decide) (by decide)
  · subst h
    exact comparison_branch_eq ex listing "km" (by decide) (by decide)
  · subst h
    have hdate : mget (classifierPayload ex listing) "date"
        = mget (_normalize_listing_payload_for_hash listing) "date" :=
      applyFallback_not_mem ex fallback_fields _ "date" (by decide)
    simp only [hdate]

theorem expectedComparisonDiffs_ne_nil_iff (ex : StoredRow) (listing : ListingMap) :
    expectedComparisonDiffs ex listing ≠ [] ↔
      ∃ f ∈ STATUS_COMPARISON_FIELDS,
        isBlankVal (mget (_normalize_listing_payload_for_hash listing) f) = false ∧
        comparisonEqual f (rowGet ex f)
          (mget (_normalize_listing_payload_for_hash listing) f) = false := by
  unfold expectedComparisonDiffs
  constructor
  · intro h
    by_contra hno
    push_neg at hno
    apply h
    rw [List.filterMap_eq_nil_iff]
    intro f hf
    dsimp only
    by_cases hb : isBlankVal (mget (_normalize_listing_payload_for_hash listing) f) = true
    · rw [if_pos hb]
    · have hb' : isBlankVal (mget (_normalize_listing_payload_for_hash listing) f) = false :=
        Bool.eq_false_iff.mpr hb
      have heq : comparisonEqual f (rowGet ex f)
          (mget (_normalize_listing_payload_for_hash listing) f) = true :=
        eq_true_of_ne_false (hno f hf hb')
      rw [if_neg hb, if_pos heq]
  · rintro ⟨f, hf, hb, he⟩ hnil
    rw [List.filterMap_eq_nil_iff] at hnil
    have h := hnil f hf
    dsimp only at h
    rw [if_neg (by simp [hb]), if_neg (by simp [he])] at h
    cases h

/-- Every field diff the classifier records is for a comparison-subset
field. -/
theorem payloadDiffs_field_mem (ex : StoredRow) (listing : ListingMap)
    (c : String × Val × Val) (hc : c ∈ payloadDiffs ex listing) :
    c.1 ∈ STATUS_COMPARISON_FIELDS := by
  rcases List.mem_filterMap.mp hc with ⟨f, hf, hsome⟩
  dsimp only at hsome
  by_cases hb : isBlankVal (mget (classifierPayload ex listing) f) = true
  · rw [if_pos hb] at hsome
    cases hsome
  · rw [if_neg hb] at hsome
    by_cases he : comparisonEqual f (rowGet ex f)
        (mget (classifierPayload ex listing) f) = true
    · rw [if_pos he] at hsome
      cases hsome
    · rw [if_neg he] at hsome
      cases hsome
      exact hf

theorem classifyFound_status (ex : StoredRow) (listing : ListingMap) :
    (classifyFound ex listing).status = classifyFoundStatus ex listing := by
  with_reducible rfl

theorem classifyFound_changes (ex : StoredRow) (listing : ListingMap) :
    (classifyFound ex listing).changes = classifyFoundChanges ex listing := by
  with_reducible rfl

theorem classifyFoundChanges_ne_nil_iff (ex : StoredRow) (listing : ListingMap) :
    classifyFoundChanges ex listing ≠ [] ↔ payloadDiffs ex listing ≠ [] := by
  unfold classifyFoundChanges
  by_cases hd : payloadDiffs ex listing = []
  · rw [if_neg (by simp [hd])]
  · by_cases hh : ex.hash ≠ _calculate_listing_hash (classifierPayload ex listing)
    · rw [if_pos ⟨hd, hh⟩]
      simp [hd]
    · rw [if_neg (fun hcon => hh hcon.2)]

/-- The classifier flags a found listing as changed exactly when some
comparison-subset field with a non-blank incoming value differs from the
stored value (dates up to the one-hour tolerance). -/
theorem classifyFound_changed_iff (ex : StoredRow) (listing : ListingMap) :
    classifyFoundStatus ex listing = STATUS_CHANGED ↔
      ∃ f ∈ STATUS_COMPARISON_FIELDS,
        isBlankVal (mget (_normalize_listing_payload_for_hash listing) f) = false ∧
        comparisonEqual f (rowGet ex f)
          (mget (_normalize_listing_payload_for_hash listing) f) = false := by
  unfold classifyFoundStatus
  by_cases hch : classifyFoundChanges ex listing ≠ []
  · rw [if_pos hch]
    have hex := (expectedComparisonDiffs_ne_nil_iff ex listing).mp
      (by rw [← payloadDiffs_eq_expected]
          exact (classifyFoundChanges_ne_nil_iff ex listing).mp hch)
    exact ⟨fun _ => hex, fun _ => rfl⟩
  · rw [if_neg hch]
    constructor
    · intro h
      exact absurd h (by decide)
    · intro hex
      exact absurd ((classifyFoundChanges_ne_nil_iff ex listing).mpr
        (by rw [payloadDiffs_eq_expected]
            exact (expectedComparisonDiffs_ne_nil_iff ex listing).mpr hex)) hch

theorem classifyFoundChanges_filter (ex : StoredRow) (listing : ListingMap) :
    (classifyFoundChanges ex listing).filter (fun c => c.1 != "hash")
      = expectedComparisonDiffs ex listing := by
  unfold classifyFoundChanges
  rw [← payloadDiffs_eq_expected]
  have hkeep : ∀ c ∈ payloadDiffs ex listing, (c.1 != "hash") = true := by
    intro c hc
    have hmem := payloadDiffs_field_mem ex listing c hc
    have hmem4 : c.1 = "link" ∨ c.1 = "price" ∨ c.1 = "km" ∨ c.1 = "date" := by
      simpa [STATUS_COMPARISON_FIELDS, OVERVIEW_COMPARISON_FIELDS] using hmem
    rcases hmem4 with h | h | h | h <;> simp [h]
  by_cases hcond : payloadDiffs ex listing ≠ [] ∧
      ex.hash ≠ _calculate_listing_hash (classifierPayload ex listing)
  · rw [if_pos hcond, List.filter_append, List.filter_eq_self.mpr hkeep]
    simp
  · rw [if_neg hcond]
    exact List.filter_eq_self.mpr hkeep

/-- C5: classifier status assignment — no store or no identifier gives `new`;
an identifier absent from the store gives `new`; a found listing is `changed`
exactly when some comparison-subset field with a non-empty incoming value
differs from the stored value (dates with the one-hour tolerance), carrying
exactly one field diff per differing field, and is `unchanged` otherwise,
irrespective of the hash comparison. -/
theorem classifier_status_assignment :
    (∀ listing, classify_listing none listing = ⟨STATUS_NEW, []⟩)
  ∧ (∀ db listing, (mget listing "id" = .vnone ∨ mget listing "id" = .vstr "") →
      classify_listing db listing = ⟨STATUS_NEW, []⟩)
  ∧ (∀ store listing,
      ¬(mget listing "id" = .vnone ∨ mget listing "id" = .vstr "") →
      storeLookup store (pyStr (mget listing "id")) = none →
      classify_listing (some store) listing = ⟨STATUS_NEW, []⟩)
  ∧ (∀ store listing ex,
      ¬(mget listing "id" = .vnone ∨ mget listing "id" = .vstr "") →
      storeLookup store (pyStr (mget listing "id")) = some ex →
      classify_listing (some store) listing = classifyFound ex listing)
  ∧ (∀ ex listing,
      ((classifyFound ex listing).status = STATUS_CHANGED ↔
        ∃ f ∈ STATUS_COMPARISON_FIELDS,
          isBlankVal (mget (_normalize_listing_payload_for_hash listing) f) = false ∧
          comparisonEqual f (rowGet ex f)
            (mget (_normalize_listing_payload_for_hash listing) f) = false)
      ∧ ((classifyFound ex listing).status ≠ STATUS_CHANGED →
          (classifyFound ex listing).status = STATUS_UNCHANGED)
      ∧ (classifyFound ex listing).changes.filter (fun c => c.1 != "hash")
          = expectedComparisonDiffs ex listing) := by
  refine ⟨fun listing => rfl, ?_, ?_, ?_, ?_⟩
  · intro db listing hbl
    cases db with
    | none => rfl
    | some store => simp [classify_listing, hbl]
  · intro store listing hnb hlook
    simp [classify_listing, hnb, hlook]
  · intro store listing ex hnb hlook
    simp [classify_listing, hnb, hlook]
  · intro ex listing
    refine ⟨?_, ?_, ?_⟩
    · rw [classifyFound_status]
      exact classifyFound_changed_iff ex listing
    · rw [classifyFound_status]
      intro hne
      unfold classifyFoundStatus at *
      by_cases hch : classifyFoundChanges ex listing ≠ []
      · exact absurd (if_pos hch) hne
      · exact if_neg hch
    · rw [classifyFound_changes]
      exact classifyFoundChanges_filter ex listing

/-- Witness for C5 at a concrete store and record: the classifier routes the
found identifier `"abc"` to the found branch, and the price difference in the
comparison subset makes the status `changed`. -/
theorem classifier_status_assignment_witness :
    classify_listing (some exStore) exItemPrice = classifyFound exRow exItemPrice
      ∧ (classifyFound exRow exItemPrice).status = STATUS_CHANGED := by
  refine ⟨classifier_status_assignment.2.2.2.1 exStore exItemPrice exRow
    (by decide) rfl, ?_⟩
  exact ((classifier_status_assignment.2.2.2.2 exRow exItemPrice).1).mpr (by decide)

/-- The prior observation of `"abc"`: exactly the stored field values. -/
def exItemOld : ListingMap := exRow.fields

/-- The stored row for `"abc"` whose hash column holds precisely the
merged-record hash the classifier computes for the prior observation — the
self-consistent store state an earlier classification pass would leave. -/
def exRowC6 : StoredRow :=
  { exRow with
    hash := _calculate_listing_hash (classifierPayload exRow exItemOld) }

set_option maxRecDepth 100000 in
/-- Counterexample for C6: with a self-consistent stored hash (first
conjunct), the price change is fully captured by the `price` field diff, yet
the classifier still appends the synthetic `"hash"` marker — the marker is
not reserved for discrepancies no field diff captured. -/
theorem hash_marker_despite_field_diff_counterexample :
    exRowC6.hash = _calculate_listing_hash (classifierPayload exRowC6 exItemOld)
      ∧ (classifyFound exRowC6 exItemPrice).changes.map Prod.fst
          = ["price", "hash"] := by
  constructor
  · decide
  · rw [classifyFound_changes]
    decide

/-- C6 (amended): whenever at least one field-level diff exists, the
synthetic `"hash"` diff entry is appended exactly when the merged-record hash
differs from the stored hash — regardless of whether a field-level diff
already captured the discrepancy; with no field-level diff the change dict
stays empty, so no hash entry is ever added. -/
theorem hash_marker_exact_condition (ex : StoredRow) (listing : ListingMap) :
    ((∃ c ∈ (classifyFound ex listing).changes, c.1 = "hash") ↔
        (payloadDiffs ex listing ≠ [] ∧
          ex.hash ≠ _calculate_listing_hash (classifierPayload ex listing)))
      ∧ (payloadDiffs ex listing = [] →
          (classifyFound ex listing).changes = []) := by
  rw [classifyFound_changes]
  constructor
  · unfold classifyFoundChanges
    by_cases hc : payloadDiffs ex listing ≠ [] ∧
        ex.hash ≠ _calculate_listing_hash (classifierPayload ex listing)
    · rw [if_pos hc]
      refine ⟨fun _ => hc, fun _ => ?_⟩
      exact ⟨("hash", .vstr ex.hash,
        .vstr (_calculate_listing_hash (classifierPayload ex listing))), by simp, rfl⟩
    · rw [if_neg hc]
      constructor
      · rintro ⟨c, hcm, hcf⟩
        have hmem := payloadDiffs_field_mem ex listing c hcm
        rw [hcf] at hmem
        exact absurd hmem (by decide)
      · intro h
        exact absurd h hc
  · intro hd
    unfold classifyFoundChanges
    rw [if_neg (fun hcon => hcon.1 hd), hd]

/-- Witness for the amended C6: re-observing the unchanged record produces no
field diff, and therefore no synthetic hash entry either. -/
theorem hash_marker_exact_condition_witness :
    (classifyFound exRowC6 exItemOld).changes = [] :=
  (hash_marker_exact_condition exRowC6 exItemOld).2 (by decide)

/-! ## Retry/backoff loops (`fetch_listing_page` / `fetch_detail_attributes`)

Network I/O is an oracle from the attempt number (1-based) to an optional
response; `time.sleep` calls are recorded as the list of slept durations. -/

/-- The observable outcome of a retried fetch: the returned value, the number
of attempts actually made, and the backoff sleeps in order. -/
structure FetchTrace (α : Type) where
  result : α
  attempts : Nat
  sleeps : List Nat
deriving DecidableEq, Repr

/-- `for attempt in range(1, retries + 1)` with `return` on success, `return`
after the final failed attempt, and `time.sleep(backoff_seconds * attempt)`
between attempts.  `fuel` is the number of loop iterations left. -/
def fetchLoop (oracle : Nat → Option String) (retries backoff : Nat) :
    Nat → Nat → List Nat → FetchTrace (Option String)
  | attempt, 0, sleeps => ⟨none, attempt - 1, sleeps⟩
  | attempt, fuel + 1, sleeps =>
      match oracle attempt with
      | some content => ⟨some content, attempt, sleeps⟩
      | none =>
          if attempt ≥ retries then ⟨none, attempt, sleeps⟩
          else fetchLoop oracle retries backoff (attempt + 1) fuel
            (sleeps ++ [backoff * attempt])

/-- `fetch_listing_page`: retry the page fetch up to `retries` times, `None`
(never an exception) on exhaustion. -/
def fetch_listing_page (oracle : Nat → Option String) (retries backoff : Nat) :
    FetchTrace (Option String) :=
  fetchLoop oracle retries backoff 1 retries []

/-- `fetch_detail_attributes`: an empty/missing URL returns `{}` immediately;
otherwise the same retry loop as the page fetcher runs, parsing the response
on success (the site-specific extraction is the external `parseDetail`
collaborator) and returning `{}` on exhaustion. -/
def fetch_detail_attributes (oracle : Nat → Option String)
    (parseDetail : String → List (String × Val)) (url : Option String)
    (retries backoff : Nat) : FetchTrace (List (String × Val)) :=
  if url = none ∨ url = some "" then ⟨[], 0, []⟩
  else
    let t := fetchLoop oracle retries backoff 1 retries []
    match t.result with
    | some html => ⟨parseDetail html, t.attempts, t.sleeps⟩
    | none => ⟨[], t.attempts, t.sleeps⟩

/-- When every attempt from `attempt` on fails, the loop runs to the attempt
cap and returns `None`, having slept `backoff * i` after each non-final
attempt `i`. -/
theorem fetchLoop_all_fail (oracle : Nat → Option String)
    (retries backoff : Nat) :
    ∀ (fuel attempt : Nat) (sleeps : List Nat),
      attempt + fuel = retries + 1 → 1 ≤ attempt →
      (∀ i, attempt ≤ i → i ≤ retries → oracle i = none) →
      fetchLoop oracle retries backoff attempt fuel sleeps =
        ⟨none, retries,
         sleeps ++ (List.range' attempt (retries - attempt)).map
           (fun i => backoff * i)⟩
  | 0, attempt, sleeps, hinv, h1, hfail => by
      have hat : attempt = retries + 1 := by omega
      simp [fetchLoop, hat]
  | fuel + 1, attempt, sleeps, hinv, h1, hfail => by
      have hle : attempt ≤ retries := by omega
      rw [fetchLoop, hfail attempt le_rfl hle]
      by_cases hge : attempt ≥ retries
      · have hat : attempt = retries := le_antisymm hle hge
        rw [if_pos hge]
        simp [hat]
      · rw [if_neg hge]
        rw [fetchLoop_all_fail oracle retries backoff fuel (attempt + 1)
          (sleeps ++ [backoff * attempt]) (by omega) (by omega)
          (fun i hi1 hi2 => hfail i (by omega) hi2)]
        have hrange : List.range' attempt (retries - attempt)
            = attempt :: List.range' (attempt + 1) (retries - (attempt + 1)) := by
          have : retries - attempt = (retries - (attempt + 1)) + 1 := by omega
          rw [this, List.range'_succ]
        rw [hrange]
        simp

/-- C7: retry determinism and failure signaling — when every attempt fails
with a transient error, the page fetcher returns `None` (no exception) after
exactly the configured attempt count, sleeping `backoff_seconds * attempt`
after each non-final attempt (a strictly increasing sequence, none after the
final attempt); the detail fetcher runs the same loop and degrades to an
empty attribute map. -/
theorem retry_determinism (oracle : Nat → Option String)
    (parseDetail : String → List (String × Val)) (url : String)
    (retries backoff : Nat) (hb : 1 ≤ backoff) (hurl : url ≠ "")
    (hfail : ∀ i, 1 ≤ i → i ≤ retries → oracle i = none) :
    (fetch_listing_page oracle retries backoff).result = none
      ∧ (fetch_listing_page oracle retries backoff).attempts = retries
      ∧ (fetch_listing_page oracle retries backoff).sleeps
          = (List.range' 1 (retries - 1)).map (fun i => backoff * i)
      ∧ (fetch_listing_page oracle retries backoff).sleeps.Chain' (· < ·)
      ∧ fetch_detail_attributes oracle parseDetail (some url) retries backoff
          = ⟨[], retries, (List.range' 1 (retries - 1)).map (fun i => backoff * i)⟩ := by
  have hloop := fetchLoop_all_fail oracle retries backoff retries 1 []
    (by omega) le_rfl (fun i hi1 hi2 => hfail i hi1 hi2)
  have hmain : fetch_listing_page oracle retries backoff
      = ⟨none, retries, (List.range' 1 (retries - 1)).map (fun i => backoff * i)⟩ := by
    rw [fetch_listing_page, hloop]
    simp
  have hchain : ((List.range' 1 (retries - 1)).map (fun i => backoff * i)).Chain' (· < ·) := by
    apply List.Pairwise.chain'
    rw [List.pairwise_map]
    exact (List.pairwise_lt_range' 1 (retries - 1)).imp
      (fun h => Nat.mul_lt_mul_of_pos_left h hb)
  refine ⟨by rw [hmain], by rw [hmain], by rw [hmain], by rw [hmain]; exact hchain, ?_⟩
  rw [fetch_detail_attributes, if_neg (by simp [hurl]), hloop]
  simp

/-- Witness for C7: three failing attempts with backoff 2 return `None` after
3 attempts with sleeps `[2, 4]`, and the detail fetcher degrades to `{}`. -/
theorem retry_determinism_witness :
    (fetch_listing_page (fun _ => none) 3 2).result = none
      ∧ (fetch_listing_page (fun _ => none) 3 2).attempts = 3
      ∧ (fetch_listing_page (fun _ => none) 3 2).sleeps
          = (List.range' 1 2).map (fun i => 2 * i)
      ∧ (fetch_listing_page (fun _ => none) 3 2).sleeps.Chain' (· < ·)
      ∧ fetch_detail_attributes (fun _ => none) (fun _ => []) (some "http://x") 3 2
          = ⟨[], 3, (List.range' 1 2).map (fun i => 2 * i)⟩ :=
  retry_determinism (fun _ => none) (fun _ => []) "http://x" 3 2 (by decide)
    (by decide) (fun _ _ _ => rfl)

/-! ## Session deduplication (the seen-id loop of
`run_scraper_flow_from_config`) -/

/-- The outcome of one page's dedup pass: the grown seen-set, the kept
listings in order, and the number of duplicates skipped. -/
structure DedupResult where
  seen : List Val
  kept : List ListingMap
  dups : Nat
deriving DecidableEq, Repr

/-- The per-page loop: a truthy identifier already seen is dropped and
counted; a truthy unseen identifier is registered; id-less listings always
pass.  The Python `set` is modelled as a membership-queried list. -/
def dedupStep (seen : List Val) : List ListingMap → DedupResult
  | [] => ⟨seen, [], 0⟩
  | item :: rest =>
      let item_id := mget item "id"
      if pyTruthy item_id && seen.contains item_id then
        let r := dedupStep seen rest
        ⟨r.seen, r.kept, r.dups + 1⟩
      else
        let r := dedupStep (if pyTruthy item_id then item_id :: seen else seen) rest
        ⟨r.seen, item :: r.kept, r.dups⟩

/-- How many listings of `items` carry the identifier `v`. -/
def countId (items : List ListingMap) (v : Val) : Nat :=
  (items.filter (fun it => mget it "id" == v)).length

/-- The dedup pass iterated over the pages of one crawl run, threading the
session seen-set. -/
def dedup_pages (seen : List Val) :
    List (List ListingMap) → List Val × List (List ListingMap) × Nat
  | [] => (seen, [], 0)
  | page :: rest =>
      ((dedup_pages (dedupStep seen page).seen rest).1,
       (dedupStep seen page).kept
         :: (dedup_pages (dedupStep seen page).seen rest).2.1,
       (dedupStep seen page).dups
         + (dedup_pages (dedupStep seen page).seen rest).2.2)

theorem countId_append (a b : List ListingMap) (v : Val) :
    countId (a ++ b) v = countId a v + countId b v := by
  simp [countId, List.filter_append]

theorem countId_ge_one (l : List ListingMap) (item : ListingMap)
    (h : item ∈ l) : 1 ≤ countId l (mget item "id") := by
  apply List.length_pos.mpr
  intro hnil
  have : item ∈ l.filter (fun it => mget it "id" == mget item "id") :=
    List.mem_filter.mpr ⟨h, by simp⟩
  rw [hnil] at this
  cases this

/-- The per-identifier bookkeeping of one dedup pass: an already-seen truthy
identifier is never kept, every truthy identifier is kept at most once, and
the outgoing seen-set holds exactly the incoming one plus the kept
identifiers. -/
theorem dedupStep_count (v : Val) (hv : pyTruthy v = true) :
    ∀ (seen : List Val) (items : List ListingMap),
      (v ∈ seen → countId (dedupStep seen items).kept v = 0)
      ∧ countId (dedupStep seen items).kept v ≤ 1
      ∧ (v ∈ (dedupStep seen items).seen ↔
          v ∈ seen ∨ 1 ≤ countId (dedupStep seen items).kept v)
  | seen, [] => by simp [dedupStep, countId]
  | seen, item :: rest => by
      simp only [dedupStep]
      by_cases hA : (pyTruthy (mget item "id")
          && seen.contains (mget item "id")) = true
      · rw [if_pos hA]
        exact dedupStep_count v hv seen rest
      · rw [if_neg hA]
        by_cases hid : mget item "id" = v
        · have htr : pyTruthy (mget item "id") = true := by rw [hid]; exact hv
          have hnotin : v ∉ seen := by
            intro hmem
            exact hA (by rw [hid]
                         simp [hv, List.contains, List.elem_iff, hmem])
          rw [if_pos htr, hid]
          obtain ⟨ih1, ih2, ih3⟩ := dedupStep_count v hv (v :: seen) rest
          have hz : countId (dedupStep (v :: seen) rest).kept v = 0 :=
            ih1 (List.mem_cons_self v seen)
          have hcnt : countId (item :: (dedupStep (v :: seen) rest).kept) v = 1 := by
            have hbeq : (mget item "id" == v) = true := by simp [hid]
            simp only [countId, List.filter_cons, hbeq, if_true, List.length_cons]
            simp only [countId] at hz
            omega
          refine ⟨fun hmem => absurd hmem hnotin, le_of_eq hcnt, ?_⟩
          rw [hcnt]
          have hm : v ∈ (dedupStep (v :: seen) rest).seen :=
            ih3.mpr (Or.inl (List.mem_cons_self v seen))
          exact iff_of_true hm (Or.inr le_rfl)
        · have hcons : countId (item :: (dedupStep
              (if pyTruthy (mget item "id") then mget item "id" :: seen else seen)
              rest).kept) v
              = countId (dedupStep
                  (if pyTruthy (mget item "id") then mget item "id" :: seen else seen)
                  rest).kept v := by
            simp [countId, List.filter_cons, hid]
          obtain ⟨ih1, ih2, ih3⟩ := dedupStep_count v hv
            (if pyTruthy (mget item "id") then mget item "id" :: seen else seen) rest
          have hmemiff : v ∈ (if pyTruthy (mget item "id") then
              mget item "id" :: seen else seen) ↔ v ∈ seen := by
            split
            · rw [List.mem_cons]
              exact ⟨fun h => h.resolve_left (fun he => hid he.symm), Or.inr⟩
            · exact Iff.rfl
          refine ⟨fun hmem => ?_, by rw [hcons]; exact ih2, ?_⟩
          · rw [hcons]
            exact ih1 (hmemiff.mpr hmem)
          · rw [hcons, ih3, hmemiff]
  termination_by _ items => items.length

/-- Listings without a truthy identifier always pass the dedup stage, with
multiplicity. -/
theorem dedupStep_falsy (it : ListingMap) (hf : pyTruthy (mget it "id") = false) :
    ∀ (seen : List Val) (items : List ListingMap),
      (dedupStep seen items).kept.count it = items.count it
  | _, [] => by simp [dedupStep]
  | seen, item :: rest => by
      simp only [dedupStep]
      by_cases hA : (pyTruthy (mget item "id")
          && seen.contains (mget item "id")) = true
      · rw [if_pos hA]
        have hne : (item == it) = false := by
          rw [beq_eq_false_iff_ne]
          intro he
          subst he
          rw [hf] at hA
          simp at hA
        rw [List.count_cons, hne, dedupStep_falsy it hf seen rest]
        simp
      · rw [if_neg hA]
        rw [List.count_cons, List.count_cons, dedupStep_falsy it hf _ rest]
  termination_by _ items => items.length

/-- The dropped count is exactly the number of listings not kept. -/
theorem dedupStep_length :
    ∀ (seen : List Val) (items : List ListingMap),
      items.length = (dedupStep seen items).kept.length + (dedupStep seen items).dups
  | _, [] => rfl
  | seen, item :: rest => by
      simp only [dedupStep]
      by_cases hA : (pyTruthy (mget item "id")
          && seen.contains (mget item "id")) = true
      · rw [if_pos hA]
        have := dedupStep_length seen rest
        simp only [List.length_cons]
        omega
      · rw [if_neg hA]
        have := dedupStep_length
          (if pyTruthy (mget item "id") then mget item "id" :: seen else seen) rest
        simp only [List.length_cons]
        omega
  termination_by _ items => items.length

/-- The session seen-set only grows. -/
theorem dedupStep_seen_mono :
    ∀ (seen : List Val) (items : List ListingMap),
      seen ⊆ (dedupStep seen items).seen
  | _, [] => fun _ h => h
  | seen, item :: rest => by
      simp only [dedupStep]
      by_cases hA : (pyTruthy (mget item "id")
          && seen.contains (mget item "id")) = true
      · rw [if_pos hA]
        exact dedupStep_seen_mono seen rest
      · rw [if_neg hA]
        refine fun x hx => dedupStep_seen_mono _ rest ?_
        split
        · exact List.mem_cons_of_mem _ hx
        · exact hx
  termination_by _ items => items.length

/-- Every occurrence of an already-registered truthy identifier is counted as
a duplicate. -/
theorem dedupStep_drops_seen (v : Val) (hv : pyTruthy v = true) :
    ∀ (seen : List Val) (items : List ListingMap), v ∈ seen →
      countId items v ≤ (dedupStep seen items).dups
  | _, [], _ => by simp [dedupStep, countId]
  | seen, item :: rest, hmem => by
      simp only [dedupStep]
      by_cases hid : mget item "id" = v
      · have hA : (pyTruthy (mget item "id")
            && seen.contains (mget item "id")) = true := by
          rw [hid]
          simp only [hv, Bool.true_and]
          exact List.elem_iff.mpr hmem
        rw [if_pos hA]
        have hih := dedupStep_drops_seen v hv seen rest hmem
        have hbeq : (mget item "id" == v) = true := by simp [hid]
        simp only [countId, List.filter_cons, hbeq, if_true, List.length_cons]
        simp only [countId] at hih
        omega
      · have hcnt : countId (item :: rest) v = countId rest v := by
          simp [countId, List.filter_cons, hid]
        rw [hcnt]
        by_cases hA : (pyTruthy (mget item "id")
            && seen.contains (mget item "id")) = true
        · rw [if_pos hA]
          have hih := dedupStep_drops_seen v hv seen rest hmem
          have hd : (⟨(dedupStep seen rest).seen, (dedupStep seen rest).kept,
              (dedupStep seen rest).dups + 1⟩ : DedupResult).dups
              = (dedupStep seen rest).dups + 1 := rfl
          rw [hd]
          omega
        · rw [if_neg hA]
          refine dedupStep_drops_seen v hv _ rest ?_
          split
          · exact List.mem_cons_of_mem _ hmem
          · exact hmem
  termination_by _ items _ => items.length

/-- The per-identifier bookkeeping threaded across a whole run. -/
theorem dedup_pages_count (v : Val) (hv : pyTruthy v = true) :
    ∀ (seen : List Val) (pages : List (List ListingMap)),
      (v ∈ seen → countId (dedup_pages seen pages).2.1.flatten v = 0)
      ∧ countId (dedup_pages seen pages).2.1.flatten v ≤ 1
      ∧ (v ∈ (dedup_pages seen pages).1 ↔
          v ∈ seen ∨ 1 ≤ countId (dedup_pages seen pages).2.1.flatten v)
  | seen, [] => by simp [dedup_pages, countId]
  | seen, page :: rest => by
      obtain ⟨s1, s2, s3⟩ := dedupStep_count v hv seen page
      obtain ⟨p1, p2, p3⟩ := dedup_pages_count v hv (dedupStep seen page).seen rest
      simp only [dedup_pages, List.flatten_cons]
      refine ⟨?_, ?_, ?_⟩
      · intro hmem
        rw [countId_append]
        have h1 := s1 hmem
        have h2 := p1 (dedupStep_seen_mono seen page hmem)
        omega
      · rw [countId_append]
        by_cases hk : 1 ≤ countId (dedupStep seen page).kept v
        · have h2 := p1 (s3.mpr (Or.inr hk))
          omega
        · omega
      · rw [countId_append]
        constructor
        · intro hfin
          rcases p3.mp hfin with hm | hc
          · rcases s3.mp hm with hm' | hc'
            · exact Or.inl hm'
            · exact Or.inr (by omega)
          · exact Or.inr (by omega)
        · rintro (hm | hc)
          · exact p3.mpr (Or.inl (dedupStep_seen_mono seen page hm))
          · by_cases hk : 1 ≤ countId (dedupStep seen page).kept v
            · exact p3.mpr (Or.inl (s3.mpr (Or.inr hk)))
            · exact p3.mpr (Or.inr (by omega))
  termination_by _ pages => pages.length

/-- C8: session deduplication — across the pages of one run, a truthy
identifier already in the session seen-set is never kept, every truthy
identifier reaches persistence at most once, listings without an identifier
always pass through with multiplicity, and every dropped listing is counted
as a duplicate. -/
theorem session_deduplication :
    (∀ (v : Val) (seen : List Val) (pages : List (List ListingMap)),
        pyTruthy v = true →
        (v ∈ seen → countId (dedup_pages seen pages).2.1.flatten v = 0)
          ∧ countId (dedup_pages seen pages).2.1.flatten v ≤ 1)
  ∧ (∀ (it : ListingMap) (seen : List Val) (pages : List (List ListingMap)),
        pyTruthy (mget it "id") = false →
        (dedup_pages seen pages).2.1.flatten.count it = pages.flatten.count it)
  ∧ (∀ (seen : List Val) (pages : List (List ListingMap)),
        pages.flatten.length = (dedup_pages seen pages).2.1.flatten.length
          + (dedup_pages seen pages).2.2) := by
  refine ⟨fun v seen pages hv =>
    ⟨(dedup_pages_count v hv seen pages).1, (dedup_pages_count v hv seen pages).2.1⟩,
    ?_, ?_⟩
  · intro it seen pages hf
    induction pages generalizing seen with
    | nil => rfl
    | cons page rest ih =>
      simp only [dedup_pages, List.flatten_cons, List.count_append]
      rw [dedupStep_falsy it hf seen page, ih]
  · intro seen pages
    induction pages generalizing seen with
    | nil => rfl
    | cons page rest ih =>
      simp only [dedup_pages, List.flatten_cons, List.length_append]
      have h1 := dedupStep_length seen page
      have h2 := ih (dedupStep seen page).seen
      omega

/-- C10: identifiers are registered during deduplication, before the
save-limit cap truncates the page — an item cut by the cap keeps its
identifier in the session seen-set, is itself not persisted (not in the kept
prefix), and any later occurrence of that identifier is dropped and counted
as a duplicate, while the seen-set only ever grows. -/
theorem dedup_registers_before_cap :
    ∀ (seen : List Val) (items1 : List ListingMap) (r : Nat) (item : ListingMap),
      pyTruthy (mget item "id") = true →
      item ∈ (dedupStep seen items1).kept.drop r →
      (mget item "id") ∈ (dedupStep seen items1).seen
        ∧ countId ((dedupStep seen items1).kept.take r) (mget item "id") = 0
        ∧ (∀ (s2 : List Val) (items2 : List ListingMap),
            (dedupStep seen items1).seen ⊆ s2 →
            countId (dedupStep s2 items2).kept (mget item "id") = 0
              ∧ countId items2 (mget item "id") ≤ (dedupStep s2 items2).dups)
        ∧ (∀ (s : List Val) (its : List ListingMap), s ⊆ (dedupStep s its).seen) := by
  intro seen items1 r item htr hdrop
  obtain ⟨s1, s2, s3⟩ := dedupStep_count (mget item "id") htr seen items1
  have hkept : item ∈ (dedupStep seen items1).kept := List.mem_of_mem_drop hdrop
  have hc1 : 1 ≤ countId (dedupStep seen items1).kept (mget item "id") :=
    countId_ge_one _ _ hkept
  have hmemseen : (mget item "id") ∈ (dedupStep seen items1).seen :=
    s3.mpr (Or.inr hc1)
  refine ⟨hmemseen, ?_, ?_, fun s its => dedupStep_seen_mono s its⟩
  · have hsplit : countId (dedupStep seen items1).kept (mget item "id")
        = countId ((dedupStep seen items1).kept.take r) (mget item "id")
          + countId ((dedupStep seen items1).kept.drop r) (mget item "id") := by
      rw [← countId_append, List.take_append_drop]
    have hdropc : 1 ≤ countId ((dedupStep seen items1).kept.drop r) (mget item "id") :=
      countId_ge_one _ _ hdrop
    omega
  · intro s2' items2 hsub
    have hmem2 : (mget item "id") ∈ s2' := hsub hmemseen
    exact ⟨(dedupStep_count (mget item "id") htr s2' items2).1 hmem2,
           dedupStep_drops_seen (mget item "id") htr s2' items2 hmem2⟩

/-- A minimal page listing with the given identifier. -/
def exPageItem (i : String) : ListingMap :=
  [("id", .vstr i), ("link", .vstr ("http://x/" ++ i))]

/-- A listing with no identifier at all. -/
def exNoIdItem : ListingMap := [("link", .vstr "http://x/noid")]

/-- Page A of the spec's dedup example: ids 1 and 2. -/
def exPageA : List ListingMap := [exPageItem "1", exPageItem "2"]

/-- Page B of the spec's dedup example: ids 2 and 3, plus an id-less item. -/
def exPageB : List ListingMap := [exPageItem "2", exPageItem "3", exNoIdItem]

/-- Witness for C8 on the spec's example: pages with ids `{1, 2}` then
`{2, 3}` keep id 2 at most once, pass the id-less item through, balance the
duplicate count, and keep exactly `[[1, 2], [3, no-id]]` with one
duplicate. -/
theorem session_deduplication_witness :
    countId (dedup_pages [] [exPageA, exPageB]).2.1.flatten (.vstr "2") ≤ 1
      ∧ (dedup_pages [] [exPageA, exPageB]).2.1.flatten.count exNoIdItem
          = [exPageA, exPageB].flatten.count exNoIdItem
      ∧ [exPageA, exPageB].flatten.length
          = (dedup_pages [] [exPageA, exPageB]).2.1.flatten.length
            + (dedup_pages [] [exPageA, exPageB]).2.2
      ∧ (dedup_pages [] [exPageA, exPageB]).2.1
          = [[exPageItem "1", exPageItem "2"], [exPageItem "3", exNoIdItem]]
      ∧ (dedup_pages [] [exPageA, exPageB]).2.2 = 1 :=
  ⟨(session_deduplication.1 (.vstr "2") [] [exPageA, exPageB] (by decide)).2,
   session_deduplication.2.1 exNoIdItem [] [exPageA, exPageB] (by decide),
   session_deduplication.2.2 [] [exPageA, exPageB],
   by decide, by decide⟩

/-- Witness for C10 at a concrete run: with a save-limit cap of 1, the capped
id 2 stays registered, is absent from the persisted prefix, and its
reappearance on a later page is dropped and counted. -/
theorem dedup_registers_before_cap_witness :
    (Val.vstr "2") ∈ (dedupStep [] exPageA).seen
      ∧ countId ((dedupStep [] exPageA).kept.take 1) (.vstr "2") = 0
      ∧ countId (dedupStep (dedupStep [] exPageA).seen [exPageItem "2"]).kept
          (.vstr "2") = 0
      ∧ 1 ≤ (dedupStep (dedupStep [] exPageA).seen [exPageItem "2"]).dups := by
  have h := dedup_registers_before_cap [] exPageA 1 (exPageItem "2")
    (by decide) (by decide)
  have h3 := h.2.2.1 (dedupStep [] exPageA).seen [exPageItem "2"] (fun x hx => hx)
  exact ⟨h.1, h.2.1, h3.1,
    le_trans (by decide : 1 ≤ countId [exPageItem "2"] (.vstr "2")) h3.2⟩

/-! ## `parse_mk_date`, recency predicates and the page-end decision -/

/-- Python `str.lower()` on the alphabets this scraper sees (ASCII plus the
Cyrillic block used by Macedonian month and day words). -/
def pyLowerChar (c : Char) : Char :=
  let n := c.toNat
  if 65 ≤ n && n ≤ 90 then Char.ofNat (n + 32)
  else if 1040 ≤ n && n ≤ 1071 then Char.ofNat (n + 32)
  else if 1024 ≤ n && n ≤ 1039 then Char.ofNat (n + 80)
  else c

def pyLower (s : String) : String := String.mk (s.data.map pyLowerChar)

/-- Python `str.split()` (no separator): split on whitespace runs, dropping
empty pieces. -/
def splitWsAux : List Char → List Char → List String
  | [], acc => if acc.isEmpty then [] else [String.mk acc.reverse]
  | c :: cs, acc =>
      if c.isWhitespace then
        if acc.isEmpty then splitWsAux cs []
        else String.mk acc.reverse :: splitWsAux cs []
      else splitWsAux cs (c :: acc)

def pySplitWs (s : String) : List String := splitWsAux s.data []

/-- Python `str.split(":")`: split at every colon, keeping empty pieces. -/
def splitOnColonAux : List Char → List Char → List String
  | [], acc => [String.mk acc.reverse]
  | c :: cs, acc =>
      if c = ':' then String.mk acc.reverse :: splitOnColonAux cs []
      else splitOnColonAux cs (c :: acc)

def splitOnColon (s : String) : List String := splitOnColonAux s.data []

def digitsToNat (ds : List Char) : Nat :=
  ds.foldl (fun a c => a * 10 + (c.toNat - 48)) 0

/-- Python `int(str)`: optional surrounding whitespace and sign, at least one
digit. -/
def pyParseInt (s : String) : Option Int :=
  match (pyStrip s).data with
  | [] => none
  | '-' :: ds =>
      if !ds.isEmpty && ds.all Char.isDigit then some (-(digitsToNat ds : Int))
      else none
  | '+' :: ds =>
      if !ds.isEmpty && ds.all Char.isDigit then some (digitsToNat ds : Int)
      else none
  | ds =>
      if ds.all Char.isDigit then some (digitsToNat ds : Int) else none

/-- `hour, minute = map(int, text.split(":"))`: exactly two integer pieces,
anything else raises and is caught by the caller. -/
def parseClock (s : String) : Option (Int × Int) :=
  match (splitOnColon s).map pyParseInt with
  | [some h, some m] => some (h, m)
  | _ => none

def MK_MONTHS : List (String × Nat) :=
  [("јан", 1), ("фев", 2), ("мар", 3), ("апр", 4),
   ("мај", 5), ("јун", 6), ("јул", 7), ("авг", 8),
   ("сеп", 9), ("окт", 10), ("ное", 11), ("дек", 12)]

def mkMonthsGet (k : String) : Option Nat :=
  match MK_MONTHS.find? (fun p => p.1 == k) with
  | some p => some p.2
  | none => none

/-- `datetime(year, month, day, hour, minute)`: out-of-range components raise
`ValueError`, which every caller in `parse_mk_date` turns into `None`
(modelled as `none`). -/
def pyDatetime (y mo d h mi : Int) : Option PyDateTime :=
  if 0 ≤ y ∧ 0 ≤ mo ∧ 0 ≤ d ∧ 0 ≤ h ∧ 0 ≤ mi then
    let dt : PyDateTime := ⟨y.toNat, mo.toNat, d.toNat, h.toNat, mi.toNat, 0⟩
    if validDateTime dt then some dt else none
  else none

/-- The previous civil day (`now - timedelta(days=1)` on the date part). -/
def prevDay (dt : PyDateTime) : PyDateTime :=
  if 1 < dt.day then { dt with day := dt.day - 1 }
  else if 1 < dt.month then
    { dt with month := dt.month - 1, day := daysInMonth dt.year (dt.month - 1) }
  else { dt with year := dt.year - 1, month := 12, day := 31 }

/-- `.replace(hour=h, minute=m, second=0, microsecond=0)`; out-of-range
values raise (modelled as `none`, see `pyDatetime`). -/
def replaceHM (base : PyDateTime) (h mi : Int) : Option PyDateTime :=
  if 0 ≤ h ∧ h ≤ 23 ∧ 0 ≤ mi ∧ mi ≤ 59 then
    some { base with hour := h.toNat, minute := mi.toNat, second := 0 }
  else none

/-- The optional `HH:MM` of the `вчера`/`денес` forms: bad clock text falls
back to midnight. -/
def relClock (parts : List String) : Int × Int :=
  match parts with
  | _ :: p1 :: _ =>
      if p1.data.contains ':' then
        match parseClock p1 with
        | some hm => hm
        | none => (0, 0)
      else (0, 0)
  | _ => (0, 0)

/-- `parse_mk_date`: already-normalized ISO strings parse directly (with
`T`→space retried), `вчера`/`денес` are relative to `now`, and
`day month HH:MM` uses the Macedonian month names, falling back to the
previous year when the date lands more than a day in the future.  Empty or
non-string input yields `None`. -/
def parse_mk_date (now : PyDateTime) (v : Val) : Option PyDateTime :=
  if pyTruthy v = false then none
  else match v with
    | .vstr date_text =>
        let raw := pyStrip date_text
        let txt := pyLower raw
        match pyFromIsoformat raw with
        | some dt => some dt
        | none =>
          match pyFromIsoformat
              (String.mk (raw.data.map (fun c => if c = 'T' then ' ' else c))) with
          | some dt => some dt
          | none =>
            if List.isPrefixOf "вчера".data txt.data then
              let hm := relClock (pySplitWs txt)
              replaceHM (prevDay now) hm.1 hm.2
            else if List.isPrefixOf "денес".data txt.data then
              let hm := relClock (pySplitWs txt)
              replaceHM now hm.1 hm.2
            else
              match pySplitWs date_text with
              | p0 :: p1 :: p2 :: _ =>
                  match pyParseInt p0, parseClock p2 with
                  | some day, some hm =>
                      match mkMonthsGet (pyLower p1) with
                      | some month =>
                          match pyDatetime (now.year : Int) (month : Int) day hm.1 hm.2 with
                          | some dt =>
                              if toSecs now + 86400 < toSecs dt then
                                pyDatetime ((now.year : Int) - 1) (month : Int) day hm.1 hm.2
                              else some dt
                          | none => none
                      | none => none
                  | _, _ => none
              | _ => none
    | _ => none

/-- `is_older_than_days`: unparseable dates and promoted listings never count
as stale; otherwise stale means strictly before `now - days`. -/
def is_older_than_days (date_text : Val) (days : Nat) (promoted : Bool)
    (now : PyDateTime) : Bool :=
  match parse_mk_date now date_text with
  | none => false
  | some dt =>
      if promoted then false
      else decide (toSecs dt + days * 86400 < toSecs now)

/-- The stale-cutoff scan over the full, unfiltered page. -/
def stale_item_found (listings : List ListingMap) (days : Nat)
    (now : PyDateTime) : Bool :=
  listings.any fun item =>
    pyTruthy (mget item "date")
      && is_older_than_days (mget item "date") days
           (pyTruthy (mget item "promoted")) now

/-- The decision taken after a page is persisted. -/
inductive PageEndDecision where
  | stopLimit
  | stopStale
  | advance
deriving DecidableEq, Repr

/-- The page-end control flow of `run_scraper_flow_from_config`: the
save-limit check runs first, then the stale-cutoff scan, otherwise the crawl
advances to the next page. -/
def page_end_decision (limit : Option Nat) (total_saved : Nat)
    (listings : List ListingMap) (days : Nat) (now : PyDateTime) :
    PageEndDecision :=
  match limit with
  | some l =>
      if l ≤ total_saved then .stopLimit
      else if stale_item_found listings days now then .stopStale
      else .advance
  | none =>
      if stale_item_found listings days now then .stopStale
      else .advance

/-- A non-promoted page item dated well before the recency window. -/
def exStaleItem : ListingMap :=
  [("id", .vstr "9"), ("date", .vstr "2024-05-01 12:00")]

/-- The wall clock of the stale-cutoff examples. -/
def exNow : PyDateTime := ⟨2024, 5, 10, 12, 0, 0⟩

/-- Counterexample for C9: a page that both meets the save-limit and carries
a stale item stops with the limit-reached reason, not stale-cutoff — the
limit check at the end of the page loop runs before the stale scan. -/
theorem stale_page_limit_precedence_counterexample :
    stale_item_found [exStaleItem] 1 exNow = true
      ∧ page_end_decision (some 1) 1 [exStaleItem] 1 exNow = .stopLimit
      ∧ page_end_decision (some 1) 1 [exStaleItem] 1 exNow ≠ .stopStale := by
  decide

/-- C9 (amended): after a page is processed, a stale non-promoted parseable
item always prevents advancing; the stop reason is stale-cutoff unless the
save-limit was reached on the same page (which takes precedence); staleness
scans the full unfiltered page for truthy-dated items older than the window;
and a promoted item never triggers the stale stop, however old. -/
theorem stale_cutoff_stop (limit : Option Nat) (total_saved : Nat)
    (listings : List ListingMap) (days : Nat) (now : PyDateTime) :
    (stale_item_found listings days now = true →
        page_end_decision limit total_saved listings days now ≠ .advance)
      ∧ ((∀ l, limit = some l → total_saved < l) →
          stale_item_found listings days now = true →
          page_end_decision limit total_saved listings days now = .stopStale)
      ∧ (stale_item_found listings days now = true ↔
          ∃ item ∈ listings, pyTruthy (mget item "date") = true ∧
            is_older_than_days (mget item "date") days
              (pyTruthy (mget item "promoted")) now = true)
      ∧ (∀ v, is_older_than_days v days true now = false) := by
  refine ⟨?_, ?_, ?_, ?_⟩
  · intro hstale
    unfold page_end_decision
    match limit with
    | some l =>
        by_cases hl : l ≤ total_saved
        · simp [hl]
        · simp [hl, hstale]
    | none => simp [hstale]
  · intro hnolimit hstale
    cases limit with
    | some l =>
        have hlt := hnolimit l rfl
        simp [page_end_decision, hstale, Nat.not_le.mpr hlt]
    | none => simp [page_end_decision, hstale]
  · unfold stale_item_found
    rw [List.any_eq_true]
    constructor
    · rintro ⟨item, hmem, hcond⟩
      rw [Bool.and_eq_true] at hcond
      exact ⟨item, hmem, hcond.1, hcond.2⟩
    · rintro ⟨item, hmem, h1, h2⟩
      exact ⟨item, hmem, by rw [Bool.and_eq_true]; exact ⟨h1, h2⟩⟩
  · intro v
    unfold is_older_than_days
    cases hp : parse_mk_date now v <;> simp [hp]

/-- Witness for the amended C9: without a save-limit the stale page stops the
crawl with stale-cutoff, and an arbitrarily old promoted timestamp never
counts as stale. -/
theorem stale_cutoff_stop_witness :
    page_end_decision none 0 [exStaleItem] 1 exNow = PageEndDecision.stopStale
      ∧ page_end_decision none 0 [exStaleItem] 1 exNow ≠ PageEndDecision.advance
      ∧ is_older_than_days (.vstr "2000-01-01 00:00") 1 true exNow = false := by
  have h := stale_cutoff_stop none 0 [exStaleItem] 1 exNow
  exact ⟨h.2.1 (fun l hl => nomatch hl) (by decide), h.1 (by decide),
    h.2.2.2 (.vstr "2000-01-01 00:00")⟩

end Reklama5
